import Mathlib

/-!
Verification of the AlmostMake build engine (`almost_make/utils/macroUtil.py`,
`almost_make/utils/makeUtil.py`, `almost_make/utils/errorUtil.py`).

Python strings are modelled as `List Char`.  Stateful methods are modelled as
pure functions threading their state; calls to `errorUtil.reportError` /
`logWarning` are modelled by accumulating structured error / warning values
(printing and `sys.exit` are external I/O).  Fallible code (Python exceptions,
recursion that needs fuel) returns `Option`.
-/

namespace AlmostMake

/-- A Python string: a sequence of characters. -/
abbrev Str := List Char

/-- Python `\s` character class (ASCII): space, tab, newline, carriage
return, form feed, vertical tab. -/
def isPySpace (c : Char) : Bool :=
  c = ' ' || c = '\t' || c = '\n' || c = '\r' || c = '\x0c' || c = '\x0b'

/-- `MACRO_NAME_CHAR_RE = [a-zA-Z0-9_]` from macroUtil.py. -/
def isMacroNameChar (c : Char) : Bool :=
  c.isAlphanum || c = '_'

/-- Python `str.lstrip()` (strip leading whitespace). -/
def pyLstrip (s : Str) : Str := s.dropWhile (fun c => isPySpace c)

/-- Python `str.rstrip()` (strip trailing whitespace). -/
def pyRstrip (s : Str) : Str := (s.reverse.dropWhile (fun c => isPySpace c)).reverse

/-- Python `str.strip()`. -/
def pyStrip (s : Str) : Str := pyRstrip (pyLstrip s)

/-- Python `str.rstrip('\n')`. -/
def rstripNewline (s : Str) : Str := (s.reverse.dropWhile (fun c => c = '\n')).reverse

/-- Python `c in s` (containment) for a single character. -/
def hasChar (s : Str) (c : Char) : Bool := s.contains c

/-- Python `a.startswith(b)`. -/
def pyStartsWith (s pre : Str) : Bool := pre.isPrefixOf s

/-- Python `a.endswith(b)`. -/
def pyEndsWith (s suf : Str) : Bool := suf.isSuffixOf s

/-- Structured model of the messages handed to `errorUtil.reportError`
(fatal channel: `reportError` prints to stderr and, when `stopOnError` is
set, terminates the process; we model it by recording the error). -/
inductive MakeErr where
  | parenMismatch (line : Str)
  | unclosedParen (ctx : Str)
  | undefinedMacro (name ctx : Str)
  | commandNoArgs (name : Str)
  | binaryCondComma (kw : Str)
  | binaryCondArgs (kw : Str)
  | unknownConditional (kw : Str)
  | condWithoutIf (kw line : Str)
  | unendingConditional
  | wordArgs (ctx : Str)
  | wordNotInt (ctx : Str)
  | wordlistArgs (ctx : Str)
  | wordlistNotInt (ctx : Str)
  | preRecipeLine (line : Str)
  | noRule (target : Str)
  | commandFailed (cmd : Str) (status : Int)
  deriving DecidableEq, Repr

/-- Structured model of the messages handed to `errorUtil.logWarning`
(non-fatal channel: prints a warning unless silent, never terminates). -/
inductive MakeWarn where
  | circular (target : Str)
  deriving DecidableEq, Repr

/-- Configuration state of a `MacroUtil` instance: the lazy-evaluation and
definition-precondition predicates, conditional support, and the default
expansion for undefined macros.  The macro-command registry is passed
separately (its entries are text-transformation functions). -/
structure MacroCfg where
  lazyConds : List (Str → Bool)
  defConds : List (Str → Bool)
  conditionals : Bool
  expandUndefinedMacrosTo : Option Str

/-- `MacroUtil.shouldLazyEval`. -/
def shouldLazyEval (cfg : MacroCfg) (text : Str) : Bool :=
  cfg.lazyConds.any (fun f => f text)

/-- The conjunction of `definitionConditions` checked by `isMacroDef`. -/
def checkDefConds (cfg : MacroCfg) (text : Str) : Bool :=
  cfg.defConds.all (fun f => f text)

/-! ### `MacroUtil.stripComments` -/

/-- Mutable loop state of `stripComments`: the two one-level quote flags
(`singleLevel`), `inSomeSingleLevel`, the two bracket-nesting counters
(`multiLevelOpen`), and the escape flag. -/
structure SCState where
  quoteDouble : Bool
  quoteSingle : Bool
  inSome : Bool
  openParen : Nat
  openBrace : Nat
  escaped : Bool

def SCState.init : SCState :=
  ⟨false, false, false, 0, 0, false⟩

/-- The quote flag `singleLevel[c]` for `c ∈ {'"', '\''}`. -/
def SCState.quoteFlag (st : SCState) (c : Char) : Bool :=
  if c = '"' then st.quoteDouble else st.quoteSingle

def SCState.setQuoteFlag (st : SCState) (c : Char) (b : Bool) : SCState :=
  if c = '"' then { st with quoteDouble := b } else { st with quoteSingle := b }

/-- Character loop of `stripComments` (macroUtil.py lines 241-268).
`breakAtComment` is `not self.shouldLazyEval(line) or force`, which does not
change during the loop.  Returns `trimToIndex` and the reported errors;
the `break` on an unescaped comment character stops without counting it. -/
def stripCommentsGo (breakAtComment : Bool) (fullLine : Str) :
    Str → SCState → Nat → List MakeErr → Nat × List MakeErr
  | [], _, trim, errs => (trim, errs)
  | c :: rest, st, trim, errs =>
    if (c = '"' || c = '\'') && !st.escaped then
      let st' :=
        if !st.inSome then
          ({ st.setQuoteFlag c true with inSome := true } : SCState)
        else if st.quoteFlag c then
          ({ st.setQuoteFlag c false with inSome := false } : SCState)
        else st
      stripCommentsGo breakAtComment fullLine rest st' (trim + 1) errs
    else if c = '\\' && !st.escaped then
      stripCommentsGo breakAtComment fullLine rest { st with escaped := true } (trim + 1) errs
    else if c = '\\' && st.escaped then
      stripCommentsGo breakAtComment fullLine rest { st with escaped := false } (trim + 1) errs
    else if (c = '(' || c = '{') && !st.escaped && !st.inSome then
      let st' := if c = '(' then { st with openParen := st.openParen + 1 }
                 else { st with openBrace := st.openBrace + 1 }
      stripCommentsGo breakAtComment fullLine rest st' (trim + 1) errs
    else if (c = ')' || c = '}') && !st.escaped && !st.inSome then
      let pairCount := if c = ')' then st.openParen else st.openBrace
      if pairCount = 0 then
        stripCommentsGo breakAtComment fullLine rest st (trim + 1)
          (errs ++ [.parenMismatch fullLine])
      else
        let st' := if c = ')' then { st with openParen := st.openParen - 1 }
                   else { st with openBrace := st.openBrace - 1 }
        stripCommentsGo breakAtComment fullLine rest st' (trim + 1) errs
    else if c = '#' && !st.escaped && !st.inSome && breakAtComment then
      (trim, errs)
    else
      stripCommentsGo breakAtComment fullLine rest { st with escaped := false } (trim + 1) errs

/-- `MacroUtil.stripComments(line, force)`: returns `line[:trimToIndex]`
together with any reported bracket-mismatch errors. -/
def stripComments (cfg : MacroCfg) (line : Str) (force : Bool := false) :
    Str × List MakeErr :=
  let br := !shouldLazyEval cfg line || force
  let (trim, errs) := stripCommentsGo br line line .init 0 []
  (line.take trim, errs)

/-! ### `MacroUtil.argumentSplit` -/

/-- Character loop of `argumentSplit` (macroUtil.py lines 278-305), porting
the branch structure exactly.  Returns the accumulated arguments, the final
`argBuff`, and the final `parenLevel`. -/
def argumentSplitGo :
    Str → List Str → Str → Str → Int → Bool → List Str × Str × Int
  | [], args, argBuff, _, paren, _ => (args, argBuff, paren)
  | c :: rest, args, argBuff, buff, paren, inMacro =>
    if c = ',' && !inMacro then
      argumentSplitGo rest (args ++ [argBuff]) [] buff paren inMacro
    else
      let argBuff := argBuff ++ [c]
      if c = '$' && !inMacro && paren = 0 then
        argumentSplitGo rest args argBuff (buff ++ [c]) paren true
      else if c = '$' && paren = 0 && inMacro && buff = [] then
        argumentSplitGo rest args argBuff buff paren false
      else if (c = '(' || c = '{') && inMacro then
        let paren := paren + 1
        let buff := if paren > 1 then buff ++ [c] else buff
        argumentSplitGo rest args argBuff buff paren inMacro
      else if (c = ')' || c = '}') && inMacro then
        let paren := paren - 1
        if paren = 0 then argumentSplitGo rest args argBuff buff paren false
        else argumentSplitGo rest args argBuff (buff ++ [c]) paren inMacro
      else if inMacro && paren = 0 && !isMacroNameChar c then
        argumentSplitGo rest args argBuff buff paren false
      else
        argumentSplitGo rest args argBuff (buff ++ [c]) paren inMacro

/-- `MacroUtil.argumentSplit(argstring)`: split the argument text of a macro
function invocation at top-level commas; reports an unclosed-parenthesis
error (and still returns the split) when brackets remain open. -/
def argumentSplit (s : Str) : List Str × List MakeErr :=
  let (args, argBuff, paren) := argumentSplitGo s [] [] [] 0 false
  (args ++ [argBuff], if paren > 0 then [.unclosedParen s] else [])

/-- `','.join(args)` — the inverse operation used to state C10. -/
def joinComma : List Str → Str
  | [] => []
  | [a] => a
  | a :: rest => a ++ ',' :: joinComma rest

/-! ### Macro tables and the expansion engine -/

/-- A macro table: Python's insertion-ordered `dict` of name → value, read
through `in macros` / `macros[name]` only, so modelled as a partial map. -/
abbrev Macros := Str → Option Str

/-- `macros[name] = value`. -/
def mupd (m : Macros) (name v : Str) : Macros :=
  fun k => if k = name then some v else m k

/-- A table in which `name` is certainly undefined (used to quantify over
all tables not containing a given key). -/
def mdel (m : Macros) (name : Str) : Macros :=
  fun k => if k = name then none else m k

/-- The `macroCommands` registry: name → text-transformation function
(raw argument text and the macro table to replacement text).  The command
bodies live in makeUtil.py and are modelled separately where a claim needs
them. -/
abbrev MacroCmds := Str → Option (Str → Macros → Str)

/-- Index of the first Python-`\s` character (`re.search("\\s", buff)`). -/
def firstSpaceIdx (s : Str) : Option Nat :=
  s.findIdx? (fun c => isPySpace c)

/-- The type of the recursive re-expansion used inside the character loop
(`self.expandMacroUsages(macros[buff], macros)` with the fuel already
accounted for). -/
abbrev ExpandRec := Str → Macros → Option (Str × List MakeErr)

/-- The `if buffFromMacro:` block of `expandMacroUsages` (lines 354-377):
resolve the collected reference text `buff` — a defined macro is re-expanded
recursively with the current table (via `expandRec`), a registered command
receives the raw text after the first whitespace character, an undefined
name expands to the configured default or reports an undefined-macro error
(and then expands to itself, as the source appends the unmodified `buff`). -/
def processBuff (cfg : MacroCfg) (cmds : MacroCmds) (expandRec : ExpandRec)
    (fullLine : Str) (macros : Macros) (expanded buff afterBuff : Str)
    (errs : List MakeErr) : Option (Str × List MakeErr) :=
  let buff := pyLstrip buff
  match macros buff with
  | some v =>
    match expandRec v macros with
    | none => none
    | some (r, e2) => some (expanded ++ r ++ afterBuff, errs ++ e2)
  | none =>
    let w0 := buff.takeWhile (fun c => !isPySpace c)
    match cmds w0 with
    | some f =>
      match firstSpaceIdx buff with
      | none => none  -- re.search returns None; `.end()` raises AttributeError
      | some i => some (expanded ++ f (buff.drop (i + 1)) macros ++ afterBuff, errs)
    | none =>
      match cfg.expandUndefinedMacrosTo with
      | none => some (expanded ++ buff ++ afterBuff, errs ++ [.undefinedMacro buff fullLine])
      | some d => some (expanded ++ d ++ afterBuff, errs)

/-- Character loop of `expandMacroUsages` (lines 325-377); `fullLine` is the
space-suffixed line used in error messages.  Returns the final
`(expanded, buff, afterBuff, parenLevel)` state plus accumulated errors. -/
def expandGo (cfg : MacroCfg) (cmds : MacroCmds) (expandRec : ExpandRec)
    (fullLine : Str) (macros : Macros) :
    Str → Str → Str → Str → Int → Bool → List MakeErr →
      Option (Str × Str × Str × Int × List MakeErr)
  | [], expanded, buff, afterBuff, paren, _, errs =>
    some (expanded, buff, afterBuff, paren, errs)
  | c :: rest, expanded, buff, afterBuff, paren, inMac, errs =>
    if c = '$' && !inMac && paren = 0 then
      expandGo cfg cmds expandRec fullLine macros rest (expanded ++ buff) [] afterBuff paren true errs
    else if c = '$' && paren = 0 && inMac && buff.isEmpty then
      expandGo cfg cmds expandRec fullLine macros rest (expanded ++ ['$']) buff afterBuff paren false errs
    else if (c = '(' || c = '{') && inMac then
      let paren' := paren + 1
      let buff' := if paren' > 1 then buff ++ [c] else buff
      expandGo cfg cmds expandRec fullLine macros rest expanded buff' afterBuff paren' inMac errs
    else if (c = ')' || c = '}') && inMac then
      let paren' := paren - 1
      if paren' = 0 then
        match processBuff cfg cmds expandRec fullLine macros expanded buff afterBuff errs with
        | none => none
        | some (expanded', errs') =>
          expandGo cfg cmds expandRec fullLine macros rest expanded' [] [] paren' false errs'
      else
        expandGo cfg cmds expandRec fullLine macros rest expanded (buff ++ [c]) afterBuff paren' inMac errs
    else if inMac && paren = 0 && !isMacroNameChar c then
      match processBuff cfg cmds expandRec fullLine macros expanded buff (afterBuff ++ [c]) errs with
      | none => none
      | some (expanded', errs') =>
        expandGo cfg cmds expandRec fullLine macros rest expanded' [] [] paren false errs'
    else
      expandGo cfg cmds expandRec fullLine macros rest expanded (buff ++ [c]) afterBuff paren inMac errs

/-- `MacroUtil.expandMacroUsages(line, macros)` (macroUtil.py lines 315-384):
expand `$name`, `$(name)`, `${name}` references and function invocations in
`line`.  `fuel` bounds the recursive re-expansion of macro values (the
source recurses unboundedly and can diverge on self-referential tables);
`none` means the fuel ran out or the source would have raised an exception. -/
def expandMacroUsages (cfg : MacroCfg) (cmds : MacroCmds) :
    Nat → Str → Macros → Option (Str × List MakeErr)
  | 0, _, _ => none
  | fuel' + 1, line, macros =>
    -- line += ' ' : force any macros at the end of the line to expand.
    let line' := line ++ [' ']
    match expandGo cfg cmds (expandMacroUsages cfg cmds fuel') line' macros line' [] [] [] 0 false [] with
    | none => none
    | some (expanded, buff, afterBuff, paren, errs) =>
      let errs := if paren > 0 then errs ++ [.unclosedParen line'] else errs
      -- Append buff, but ignore trailing space.
      some (expanded ++ buff.dropLast ++ afterBuff, errs)

/-- `MacroUtil.getLines(content)` (lines 207-230): split into logical lines,
joining a backslash-escaped newline into a single space. -/
def getLinesGo : Str → Bool → Str → List Str → List Str
  | [], _, buff, acc => acc ++ [buff]
  | c :: rest, esc, buff, acc =>
    if c = '\\' && !esc then getLinesGo rest true buff acc
    else if esc && c ≠ '\n' then getLinesGo rest false (buff ++ ['\\', c]) acc
    else if esc && c = '\n' then getLinesGo rest false (buff ++ [' ']) acc
    else if c = '\n' then getLinesGo rest false [] (acc ++ [buff])
    else getLinesGo rest false (buff ++ [c]) acc

def getLines (content : Str) : List Str :=
  getLinesGo content false [] []

/-! ### Assignment-line and conditional-line recognition (the regexes) -/

/-- `IS_MACRO_DEF_RE = ^[a-zA-Z0-9_]+\s*([:+?]?)=\s*.*` — the regex part of
`isMacroDef`.  The name run is the maximal prefix of name characters (no
shorter split can satisfy the pattern because name characters are neither
whitespace nor `[:+?=]`). -/
def isMacroDefRe (s : Str) : Bool :=
  let name := s.takeWhile isMacroNameChar
  if name.isEmpty then false
  else
    match (s.dropWhile isMacroNameChar).dropWhile (fun c => isPySpace c) with
    | '=' :: _ => true
    | c :: '=' :: _ => c = ':' || c = '+' || c = '?'
    | _ => false

/-- `MacroUtil.isMacroDef(text)`: the regex plus every registered
definition condition. -/
def isMacroDef (cfg : MacroCfg) (s : Str) : Bool :=
  isMacroDefRe s && checkDefConds cfg s

/-- `MacroUtil.isMacroExport(text)`. -/
def isMacroExport (cfg : MacroCfg) (s : Str) : Bool :=
  pyStartsWith s "export ".data && isMacroDef cfg (pyStrip (s.drop 7))

/-- A match of `MACRO_SET_RE = \s*([:+?]?)=\s*` starting exactly at `i`:
returns the captured operator character and the index one past the match.
Greedy `\s*`, then the optional operator, then `=`, then trailing `\s*`;
no backtracking can produce a different match here because the operator
and `=` are not whitespace. -/
def matchMacroSetAt (s : Str) (i : Nat) : Option (Option Char × Nat) :=
  let rest := (s.drop i)
  let sp := (rest.takeWhile (fun c => isPySpace c)).length
  match rest.drop sp with
  | '=' :: tail => some (none, i + sp + 1 + ((tail.takeWhile (fun c => isPySpace c)).length))
  | c :: '=' :: tail =>
    if c = ':' || c = '+' || c = '?' then
      some (some c, i + sp + 2 + ((tail.takeWhile (fun c => isPySpace c)).length))
    else none
  | _ => none

/-- Leftmost match of `MACRO_SET_RE` in `s` (`re.search` / first split
point of `re.split` / first substitution of `re.sub(count=1)`): returns
`(match start, captured operator, match end)`. -/
def findMacroSetGo (s : Str) : Nat → Nat → Option (Nat × Option Char × Nat)
  | _, 0 => none
  | i, r + 1 =>
    match matchMacroSetAt s i with
    | some (op, e) => some (i, op, e)
    | none => findMacroSetGo s (i + 1) r

def findMacroSet (s : Str) : Option (Nat × Option Char × Nat) :=
  findMacroSetGo s 0 s.length

/-- `IS_MACRO_INVOKE_RE = .*[$][({]?[a-zA-Z0-9_]+[)}]?` anchored with
`re.match`: some `$`, optionally `(`/`{`, then at least one name character,
reachable from the line start through `.*` (which cannot cross a newline). -/
def invokeScan : Str → Bool
  | [] => false
  | '$' :: rest =>
    (match rest with
     | '(' :: d :: _ => isMacroNameChar d
     | '{' :: d :: _ => isMacroNameChar d
     | d :: _ => isMacroNameChar d
     | [] => false) || invokeScan rest
  | _ :: rest => invokeScan rest

/-- `MacroUtil.isMacroInvoke(text)`. -/
def isMacroInvoke (s : Str) : Bool :=
  invokeScan (s.takeWhile (fun c => c ≠ '\n'))

/-- Match one conditional keyword at the start of the lstripped line,
requiring a following whitespace character or end of line
(`^\s*(kw)(?:\s|$)`). -/
def kwMatch (t : Str) (kw : Str) : Option Str :=
  if kw.isPrefixOf t &&
      (match t.drop kw.length with
       | [] => true
       | c :: _ => isPySpace c) then
    some kw
  else none

/-- `CONDITIONAL_START`: `^\s*(ifeq|ifneq|ifdef|ifndef)(?:\s|$)`, returning
the captured keyword. -/
def condStartKw (s : Str) : Option Str :=
  let t := pyLstrip s
  (kwMatch t "ifeq".data).orElse fun _ =>
    (kwMatch t "ifneq".data).orElse fun _ =>
      (kwMatch t "ifdef".data).orElse fun _ => kwMatch t "ifndef".data

/-- `CONDITIONAL_ELSE`: `^\s*(else)(?:\s|$)`. -/
def condElseKw (s : Str) : Option Str :=
  kwMatch (pyLstrip s) "else".data

/-- `CONDITIONAL_STOP`: `^\s*(endif)(?:\s|$)`. -/
def condStopKw (s : Str) : Option Str :=
  kwMatch (pyLstrip s) "endif".data

/-- `MacroUtil.isConditional(text)`: lazily-evaluated lines are never
conditionals. -/
def isConditional (cfg : MacroCfg) (s : Str) : Bool :=
  if shouldLazyEval cfg s then false
  else (condStartKw s).isSome || (condStopKw s).isSome || (condElseKw s).isSome

/-- `MacroUtil.getConditional(text)`. -/
def getConditional (cfg : MacroCfg) (s : Str) : Option Str :=
  if isConditional cfg s then
    ((condStartKw s).orElse fun _ => (condElseKw s).orElse fun _ => condStopKw s)
  else none

/-! ### `evaluateIf` and `expandAndDefineMacros` -/

/-- Split at the first top-level comma (helper for the modelled binary
conditional parse). -/
def splitFirstComma (s : Str) : Str × Str :=
  let a := s.takeWhile (fun c => c ≠ ',')
  (a, s.drop (a.length + 1))

/-- Modelled from the spec: the argument parsing of binary conditionals in
`evaluateIf` uses `runner.shSplit` / `runner.unwrapParens` /
`runner.removeEqual` from `almost_make/utils/shellUtil/runner.py`, which is
not under src/.  Per spec §4.2, `ifeq`/`ifneq` accept either
`ifeq (A, B)` or `ifeq A,B` syntax, and the two (already macro-expanded)
arguments are compared for exact string equality; a missing argument is
treated as the empty string. -/
def parseBinaryCondArgs (argText : Str) : Str × Str :=
  let t := pyStrip argText
  if t.head? = some '(' && t.getLast? = some ')' then
    let inner := (t.drop 1).dropLast
    let (a, b) := splitFirstComma inner
    (pyStrip a, pyStrip b)
  else
    let (a, b) := splitFirstComma t
    (pyStrip a, pyStrip b)

/-- `MacroUtil.evaluateIf(conditionalContent, ifBranch, elseBranch, macros)`
(lines 124-193): returns the chosen branch text.  `none` models the `assert`
failure / `.group` on a failed match. -/
def evaluateIf (cfg : MacroCfg) (cmds : MacroCmds) (fuel : Nat)
    (conditionalContent ifBranch elseBranch : Str) (macros : Macros) :
    Option (Str × List MakeErr) :=
  if !isConditional cfg conditionalContent then none
  else
    let cc := pyLstrip conditionalContent
    match condStartKw cc with
    | none => none
    | some kw =>
      let argText₀ := pyStrip (cc.drop (kw.length + 1))
      match expandMacroUsages cfg cmds fuel argText₀ macros with
      | none => none
      | some (argText₁, e1) =>
        let argText := pyStrip argText₁
        if kw = "ifdef".data then
          some ((if (macros (pyStrip argText)).isSome then ifBranch else elseBranch), e1)
        else if kw = "ifndef".data then
          some ((if (macros (pyStrip argText)).isSome then elseBranch else ifBranch), e1)
        else
          let (a, b) := parseBinaryCondArgs argText
          if kw = "ifeq".data then
            some ((if a = b then ifBranch else elseBranch), e1)
          else
            some ((if a = b then elseBranch else ifBranch), e1)

/-- The in-flight conditional block of `expandAndDefineMacros`
(`conditionalData`): the accumulated if-branch text, the optional
else-branch text, the stack of open conditional lines and the `endif`
weights.  Python appends/pops at the list end and reads `[-1]`; we keep the
most recent element at the head. -/
structure CondData where
  ifBranch : Str
  elseBranch : Option Str
  stack : List Str
  endifWeight : List Nat

/-- Append a line to the branch currently being accumulated
(lines 473-476). -/
def condAppend (cd : CondData) (line : Str) : CondData :=
  match cd.elseBranch with
  | some e => { cd with elseBranch := some (e ++ line ++ ['\n']) }
  | none => { cd with ifBranch := cd.ifBranch ++ line ++ ['\n'] }

/-- Loop state of `expandAndDefineMacros`. -/
structure EADState where
  result : Str
  macros : Macros
  condData : Option CondData
  defName : Option Str
  defData : List Str
  errs : List MakeErr

def repeatStr (s : Str) (n : Nat) : Str :=
  (List.replicate n s).flatten

/-- The type of the recursive call `self.expandAndDefineMacros(chosenBranch,
macros)` used when a conditional is resolved. -/
abbrev EadRec := Str → Macros → Option (Str × Macros × List MakeErr)

/-- The per-line loop of `expandAndDefineMacros` (lines 397-560).  `fuel`
feeds the `expandMacroUsages` / `evaluateIf` calls; `eadRec` is the
recursive re-processing of a chosen conditional branch. -/
def eadLines (cfg : MacroCfg) (cmds : MacroCmds) (fuel : Nat) (eadRec : EadRec) :
    List Str → EADState → Option (Str × Macros × List MakeErr)
  | [], st =>
    some (st.result, st.macros,
      st.errs ++ (if st.condData.isSome then [MakeErr.unendingConditional] else []))
  | line₀ :: rest, st =>
    let sc := stripComments cfg line₀
    let line := sc.1
    let st := { st with errs := st.errs ++ sc.2 }
    let exporting := isMacroExport cfg line
    match st.condData with
    | some cd =>
      if isConditional cfg line then
        if (condStartKw line).isSome then
          let cd := { cd with stack := line :: cd.stack, endifWeight := 1 :: cd.endifWeight }
          eadLines cfg cmds fuel eadRec rest { st with condData := some (condAppend cd line) }
        else if (condElseKw line).isSome && cd.stack.length = cd.endifWeight.headD 0 then
          let lineAfter := pyStrip ((pyStrip line).drop 4)
          let elseB₀ : Str :=
            match cd.elseBranch with
            | none => []
            | some e => if e.isEmpty then e else e ++ "else\n".data
          let elseB₁ := elseB₀ ++ lineAfter ++ ['\n']
          let cd' :=
            if (condStartKw lineAfter).isSome then
              CondData.mk cd.ifBranch (some elseB₁) (lineAfter :: cd.stack)
                ((cd.endifWeight.headD 0 + 1) :: cd.endifWeight)
            else { cd with elseBranch := some elseB₁ }
          eadLines cfg cmds fuel eadRec rest { st with condData := some cd' }
        else if (condStopKw line).isSome then
          -- the while loop draining the endif weight (lines 441-446)
          let w := cd.endifWeight.headD 0
          let cd₁? : Option CondData :=
            if w > 1 then
              match cd.elseBranch with
              | none => none  -- `None += 'endif\n'` would raise
              | some e =>
                some (CondData.mk cd.ifBranch (some (e ++ repeatStr "endif\n".data (w - 1)))
                  (cd.stack.drop (w - 1)) (1 :: cd.endifWeight.tail))
            else some cd
          match cd₁? with
          | none => none
          | some cd₁ =>
            let weight₁ := cd₁.endifWeight.tail
            if cd₁.stack.length > 1 then
              -- the endif applied to a sub-if statement; it is recorded in
              -- the branch text through the fall-through append
              let cd' := CondData.mk cd₁.ifBranch cd₁.elseBranch cd₁.stack.tail weight₁
              eadLines cfg cmds fuel eadRec rest { st with condData := some (condAppend cd' line) }
            else
              match cd₁.stack with
              | [] => none  -- `pop` from an empty list raises IndexError
              | ifCond :: _ =>
                let elsePart := cd₁.elseBranch.getD []
                match evaluateIf cfg cmds fuel ifCond cd₁.ifBranch elsePart st.macros with
                | none => none
                | some (chosen, e1) =>
                  match eadRec chosen st.macros with
                  | none => none
                  | some (expanded, macros', e2) =>
                    eadLines cfg cmds fuel eadRec rest
                      { result := st.result ++ expanded ++ ['\n'], macros := macros',
                        condData := none, defName := st.defName, defData := st.defData,
                        errs := st.errs ++ e1 ++ e2 }
        else
          eadLines cfg cmds fuel eadRec rest { st with condData := some (condAppend cd line) }
      else
        eadLines cfg cmds fuel eadRec rest { st with condData := some (condAppend cd line) }
    | none =>
      match st.defName with
      | some dn =>
        if pyStartsWith line "endef".data then
          eadLines cfg cmds fuel eadRec rest
            { st with macros := mupd st.macros (pyStrip dn) (List.intercalate "\n".data st.defData),
                      defName := none }
        else
          eadLines cfg cmds fuel eadRec rest { st with defData := st.defData ++ [line] }
      | none =>
        if pyStartsWith line "define".data then
          eadLines cfg cmds fuel eadRec rest { st with defName := some (line.drop 7), defData := [] }
        else if isMacroDef cfg line || exporting then
          let lineA := if exporting then line.drop 7 else line
          match findMacroSet lineA with
          | none => none
          | some (ms, op, _) =>
            let name₀ := lineA.take ms
            let definedTo₀ := lineA.drop name₀.length
            let definedTo :=
              match findMacroSet definedTo₀ with
              | some (s2, _, e2) => definedTo₀.take s2 ++ definedTo₀.drop e2
              | none => definedTo₀
            let name := pyStrip name₀
            let doNotDefine := (op == some '?') && (st.macros name).isSome
            let concatWith : Str :=
              if (op == some '+') && (st.macros name).isSome then (st.macros name).getD []
              else []
            let deferExpand := op == none
            if doNotDefine then
              eadLines cfg cmds fuel eadRec rest { st with result := st.result ++ ['\n'] }
            else
              let concatWith' :=
                if !concatWith.isEmpty && !definedTo.isEmpty then concatWith ++ [' ']
                else concatWith
              if deferExpand then
                eadLines cfg cmds fuel eadRec rest
                  { st with macros := mupd st.macros name (concatWith' ++ rstripNewline definedTo),
                            result := st.result ++ ['\n'] }
              else
                match expandMacroUsages cfg cmds fuel definedTo st.macros with
                | none => none
                | some (v, e) =>
                  eadLines cfg cmds fuel eadRec rest
                    { st with macros := mupd st.macros name (concatWith' ++ rstripNewline v),
                              result := st.result ++ ['\n'], errs := st.errs ++ e }
        else if cfg.conditionals && isConditional cfg line && !shouldLazyEval cfg line then
          let errAdd :=
            match getConditional cfg line with
            | some kw => if (condStartKw kw).isSome then [] else [MakeErr.condWithoutIf kw line]
            | none => []
          eadLines cfg cmds fuel eadRec rest
            { st with result := st.result ++ ['\n'],
                      condData := some ⟨[], none, [line], [1]⟩,
                      errs := st.errs ++ errAdd }
        else if isMacroInvoke line && !shouldLazyEval cfg line then
          match expandMacroUsages cfg cmds fuel line st.macros with
          | none => none
          | some (r, e) =>
            eadLines cfg cmds fuel eadRec rest
              { st with result := st.result ++ r ++ ['\n'], errs := st.errs ++ e }
        else
          eadLines cfg cmds fuel eadRec rest { st with result := st.result ++ line ++ ['\n'] }

/-- `MacroUtil.expandAndDefineMacros(contents, macros)` (lines 388-567):
process the logical lines of `contents`, stripping comments, handling
`define`/`endef`, conditional blocks, assignment lines (`=`, `:=`, `+=`,
`?=`, optionally `export`-prefixed) and macro invocations; returns the
emitted text, the updated macro table and the reported errors.  The
environment write performed for `export` lines is external I/O and is not
part of the returned state.  `fuel` bounds recursion into chosen
conditional branches and macro re-expansion. -/
def expandAndDefineMacros (cfg : MacroCfg) (cmds : MacroCmds) :
    Nat → Str → Macros → Option (Str × Macros × List MakeErr)
  | 0, _, _ => none
  | fuel' + 1, contents, macros =>
    eadLines cfg cmds fuel' (expandAndDefineMacros cfg cmds fuel')
      (getLines contents) ⟨[], macros, none, none, [], []⟩

/-! ### Python primitives used by the word-selection functions -/

/-- `re.split(r"\s+", s)` (the `SPACE_CHARS.split` of makeUtil.py): split at
maximal whitespace runs; a leading/trailing run contributes an empty piece,
and splitting the empty string yields `[""]`.  `mode` is true while inside a
separator run (with `cur` the token finished before it). -/
def pyResplitGo : Str → Bool → Str → List Str
  | [], mode, cur => if mode then [cur, []] else [cur]
  | c :: rest, mode, cur =>
    if mode then
      if isPySpace c then pyResplitGo rest true cur
      else cur :: pyResplitGo rest false [c]
    else
      if isPySpace c then pyResplitGo rest true cur
      else pyResplitGo rest false (cur ++ [c])

def pyResplit (s : Str) : List Str := pyResplitGo s false []

/-- Numeric value of a digit string. -/
def digitsToNat (ds : Str) : Nat :=
  ds.foldl (fun a c => a * 10 + (c.toNat - 48)) 0

/-- Python `int(s)`: strip whitespace, allow one optional sign, then one or
more decimal digits; anything else raises `ValueError` (`none`). -/
def pyInt? (s : Str) : Option Int :=
  let t := pyStrip s
  let signDigits : Int × Str :=
    match t with
    | '+' :: r => (1, r)
    | '-' :: r => (-1, r)
    | r => (1, r)
  let sign := signDigits.1
  let digits := signDigits.2
  if !digits.isEmpty && digits.all Char.isDigit then
    some (sign * (digitsToNat digits : Int))
  else none

/-- Python `l[i]` for an `int` index: negative indices count from the end;
out of range raises `IndexError` (`none`). -/
def pyGet (l : List α) (i : Int) : Option α :=
  let j : Int := if i < 0 then (l.length : Int) + i else i
  if 0 ≤ j ∧ j < (l.length : Int) then l.get? j.toNat else none

/-- Clamp one slice bound as Python does. -/
def pySliceIdx (len : Nat) (i : Int) : Nat :=
  if i < 0 then ((len : Int) + i).toNat else min i.toNat len

/-- Python `l[a:b]`. -/
def pySlice (l : List α) (a b : Int) : List α :=
  (l.take (pySliceIdx l.length b)).drop (pySliceIdx l.length a)

/-- `" ".join(l)`. -/
def joinSpace (l : List Str) : Str :=
  List.intercalate [' '] l

/-! ### `MakeUtil.getWordOf` and `MakeUtil.makeCmdWordList` -/

/-- The shared tail of `getWordOf` (makeUtil.py lines 751-758): expand the
selected text, split it on whitespace and return the word at `selectIndex`
(Python indexing, so negative indices select from the end), or the empty
string when the index is out of range. -/
def getWordOfFinish (cfg : MacroCfg) (cmds : MacroCmds) (fuel : Nat)
    (macros : Macros) (selectIndex : Int) (argText : Str)
    (errs : List MakeErr) : Option (Str × List MakeErr) :=
  match expandMacroUsages cfg cmds fuel argText macros with
  | none => none
  | some (argText', e2) =>
    let words := pyResplit argText'
    some ((pyGet words selectIndex).getD [], errs ++ e2)

/-- `MakeUtil.getWordOf(argstring, macros, selectWord)` (lines 724-758): the
`$(word n,text)` function (and, via `selectWord`, `firstword`/`lastword`).
With `selectWord = none` the first comma-separated argument is parsed as the
1-based index (`selectIndex = int(...) - 1`). -/
def getWordOf (cfg : MacroCfg) (cmds : MacroCmds) (fuel : Nat)
    (argstring : Str) (macros : Macros) (selectWord : Option Int) :
    Option (Str × List MakeErr) :=
  match selectWord with
  | some i => getWordOfFinish cfg cmds fuel macros i (pyStrip argstring) []
  | none =>
    let (args, aerr) := argumentSplit argstring
    if args.length ≤ 1 then
      some ([], aerr ++ [MakeErr.wordArgs argstring])
    else
      match expandMacroUsages cfg cmds fuel (args.headD []) macros with
      | none => none
      | some (selectIndexText, e1) =>
        match pyInt? selectIndexText with
        | none => some ([], aerr ++ e1 ++ [MakeErr.wordNotInt argstring])
        | some k =>
          getWordOfFinish cfg cmds fuel macros (k - 1)
            (pyStrip (joinComma (args.drop 1))) (aerr ++ e1)

/-- `MakeUtil.makeCmdWordList(argstring, macros)` (lines 760-791): the
`$(wordlist s,e,text)` function; start/stop are 1-based and converted with
`- 1`, the stop index is clamped to the word count, and a start beyond the
word count yields the empty string. -/
def makeCmdWordList (cfg : MacroCfg) (cmds : MacroCmds) (fuel : Nat)
    (argstring : Str) (macros : Macros) : Option (Str × List MakeErr) :=
  let (args, aerr) := argumentSplit argstring
  if args.length ≤ 2 then
    some ([], aerr ++ [MakeErr.wordlistArgs argstring])
  else
    match expandMacroUsages cfg cmds fuel (args.headD []) macros with
    | none => none
    | some (startText, e1) =>
      match expandMacroUsages cfg cmds fuel ((args.get? 1).getD []) macros with
      | none => none
      | some (stopText, e2) =>
        match pyInt? startText, pyInt? stopText with
        | some a, some b =>
          let selectStart := a - 1
          let argText := pyStrip (joinComma (args.drop 2))
          match expandMacroUsages cfg cmds fuel argText macros with
          | none => none
          | some (argText', e3) =>
            let words := pyResplit argText'
            if selectStart > (words.length : Int) then
              some ([], aerr ++ e1 ++ e2 ++ e3)
            else
              let selectStop := min (b - 1) (words.length : Int)
              some (joinSpace (pySlice words selectStart (selectStop + 1)),
                aerr ++ e1 ++ e2 ++ e3)
        | _, _ => some ([], aerr ++ e1 ++ e2 ++ [MakeErr.wordlistNotInt argstring])

/-! ### Modelled shellUtil helpers (repository code not under src/) -/

/-- Python `s.split(sep)` for a single-character separator (no run
collapsing; empty pieces are kept). -/
def splitCharGo (sep : Char) : Str → Str → List Str
  | [], cur => [cur]
  | c :: rest, cur =>
    if c = sep then cur :: splitCharGo sep rest []
    else splitCharGo sep rest (cur ++ [c])

def splitChar (s : Str) (sep : Char) : List Str :=
  splitCharGo sep s []

/-- Modelled from the spec: `escapeParser.escapeSafeSplit(text, sep, '\\')`
from `almost_make/utils/shellUtil/escapeParser.py` (not under src/): split
`text` at unescaped occurrences of `sep`; a backslash escapes the following
character, which is kept verbatim (with its backslash) and is never a split
point. -/
def escapeSafeSplit (sep : Char) : Str → Str → List Str
  | [], cur => [cur]
  | '\\' :: c :: rest, cur => escapeSafeSplit sep rest (cur ++ ['\\', c])
  | '\\' :: [], cur => [cur ++ ['\\']]
  | c :: rest, cur =>
    if c = sep then cur :: escapeSafeSplit sep rest []
    else escapeSafeSplit sep rest (cur ++ [c])

/-- Modelled from the spec: `runner.shSplit(text, splitChars)` from
`almost_make/utils/shellUtil/runner.py` (not under src/): escape-aware
tokenization splitting at the given separator characters — per spec §4.3
the target/prerequisite sides are whitespace/`;`-separated name tokens.  A
non-whitespace separator (`;`) is kept as a standalone token (callers strip
it with `removeEqual`); empty pieces may appear and are removed by the
callers with `removeEmpty`.  Quote handling is not modelled (no claim
exercises quoted target names). -/
def shSplit (seps : List Char) : Str → Str → List Str
  | [], cur => [cur]
  | c :: rest, cur =>
    if c ∈ seps then
      if isPySpace c then cur :: shSplit seps rest []
      else cur :: [c] :: shSplit seps rest []
    else shSplit seps rest (cur ++ [c])

/-- Modelled from the spec: `runner.removeEqual(l, x)` — drop the elements
equal to `x`. -/
def removeEqual (l : List Str) (x : Str) : List Str :=
  l.filter (fun s => s ≠ x)

/-- Modelled from the spec: `runner.removeEmpty(l)` — drop empty strings. -/
def removeEmpty (l : List Str) : List Str :=
  l.filter (fun s => !s.isEmpty)

/-- Modelled from the spec: `runner.isQuoted(s)` — the string is wrapped in
a matching pair of single or double quotes. -/
def isQuoted (s : Str) : Bool :=
  match s with
  | [] => false
  | c :: rest =>
    (c = '"' || c = '\'') && !rest.isEmpty && rest.getLast? = some c

/-- The separator set `{' ', '\t', '\n', ';'}` used for target lines. -/
def targetSeps : List Char := [' ', '\t', '\n', ';']

/-! ### Rule database (`MakeUtil.getTargetActions`) -/

/-- One rule-database value.  Python stores heterogeneous tuples: a pattern
rule line is stored under its own literal line text as
`((allGenerates, dependsOn), recipe)`, every other target name maps to
`(dependsOn, recipe)`. -/
inductive RuleEntry where
  | plain (deps : List Str) (recipe : List Str)
  | pattern (generates : List Str) (deps : List Str) (recipe : List Str)
  deriving DecidableEq, Repr

/-- The rule database: Python's insertion-ordered `dict`, modelled as an
association list so that `keys()` iteration order is preserved. -/
abbrev RuleDB := List (Str × RuleEntry)

def dbGet (db : RuleDB) (k : Str) : Option RuleEntry :=
  (db.find? (fun p => p.1 = k)).map Prod.snd

def dbHas (db : RuleDB) (k : Str) : Bool :=
  (dbGet db k).isSome

/-- `db[k] = v`: replace in place (keeping the insertion position) or
append a new key at the end, as a Python dict does (keys are unique, so
replacing the first occurrence is the dict behaviour). -/
def dbSet : RuleDB → Str → RuleEntry → RuleDB
  | [], k, v => [(k, v)]
  | (k', v') :: rest, k, v =>
    if k' = k then (k', v) :: rest
    else (k', v') :: dbSet rest k v

/-- `line.index(':')` (only evaluated when `':' in line`). -/
def charIndex (s : Str) (c : Char) : Nat :=
  (s.takeWhile (fun x => x ≠ c)).length

/-- `MakeUtil.isPatternSubstRecipe(line)` (makeUtil.py lines 258-264). -/
def isPatternSubstRecipe (line : Str) : Bool :=
  if !line.contains '%' then false
  else (escapeSafeSplit '%' line []).length > 1

/-- Loop state of `getTargetActions`. -/
structure GTAState where
  result : RuleDB
  currentRecipe : List Str
  targetNames : List Str
  specialTargetNames : List Str
  errs : List MakeErr

/-- Inner loop over the generated-target names of one non-pattern target
line (makeUtil.py lines 232-250), threading the mutable `currentRecipe`. -/
def gtaGenerates (dependsOn : List Str) :
    List Str → RuleDB → List Str → List Str → List Str →
      RuleDB × List Str × List Str × List Str
  | [], db, currentRecipe, tn, stn => (db, currentRecipe, tn, stn)
  | generates :: more, db, currentRecipe, tn, stn =>
    let merged :=
      match dbGet db generates with
      | some (RuleEntry.plain oldDeps oldRecipe) =>
        (dependsOn ++ oldDeps, currentRecipe ++ oldRecipe.reverse)
      | _ => (dependsOn, currentRecipe)
    let currentDeps := merged.1
    let currentRecipe := merged.2
    let outRecipe := currentRecipe.reverse
    let db := dbSet db generates (RuleEntry.plain currentDeps outRecipe)
    if pyStartsWith generates ".".data then
      gtaGenerates dependsOn more db currentRecipe tn (stn ++ [generates])
    else
      gtaGenerates dependsOn more db currentRecipe (tn ++ [generates]) stn

/-- Per-line step of `getTargetActions` (lines 201-251), applied to the
lines in reverse file order. -/
def gtaLine (st : GTAState) (line : Str) : GTAState :=
  if pyStartsWith line "\t".data then
    { st with currentRecipe := st.currentRecipe ++ [line.drop 1] }
  else if (pyStrip line).length > 0 then
    if !line.contains ':' then
      -- `continue`: currentRecipe is NOT cleared on this path
      if st.currentRecipe.length > 0 then
        { st with errs := st.errs ++ [MakeErr.preRecipeLine line] }
      else st
    else
      let sepIndex := charIndex line ':'
      let allGenerates := removeEmpty (removeEqual
        (shSplit targetSeps (pyStrip (line.take sepIndex)) []) [';'])
      let preReqs := pyStrip (line.drop (sepIndex + 1))
      let dependsOn := removeEmpty (removeEqual (shSplit targetSeps preReqs []) [';'])
      if isPatternSubstRecipe line then
        { st with
          result := dbSet st.result line
            (RuleEntry.pattern allGenerates dependsOn st.currentRecipe.reverse),
          currentRecipe := [] }
      else
        let r := gtaGenerates dependsOn allGenerates st.result st.currentRecipe
          st.targetNames st.specialTargetNames
        { result := r.1, currentRecipe := [], targetNames := r.2.2.1,
          specialTargetNames := r.2.2.2, errs := st.errs }
  else st

/-- `MakeUtil.getTargetActions(content)` (lines 192-256): parse the
effective rule-file text (scanning lines bottom-up) into the rule database
and the default-goal ordering, with target names beginning with `.` moved
to the end of the ordering. -/
def getTargetActions (content : Str) : RuleDB × List Str × List MakeErr :=
  let lines := (splitChar content '\n').reverse
  let st := lines.foldl gtaLine ⟨[], [], [], [], []⟩
  (st.result, st.targetNames.reverse ++ st.specialTargetNames, st.errs)

/-- The default-goal selection of `runMakefile` (makeUtil.py lines
1059-1060): when the target argument is the empty string and the ordering
returned by `getTargetActions` (applied to the macro-expanded,
include-resolved makefile text, passed in here as `orderedTargets`) is
non-empty, the target built is `targets[0]`; otherwise the argument itself. -/
def runMakefileTarget (target : Str) (orderedTargets : List Str) : Str :=
  if target = [] ∧ orderedTargets.length > 0 then orderedTargets.headD [] else target

/-! ### File search, globbing and phony targets -/

/-- The filesystem, an external collaborator (os.path.exists /
os.path.getmtime): maps a path to its modification time when the file
exists. -/
abbrev FileSys := Str → Option Int

/-- The raw globber `globber.glob(text, '.', [])`, an external collaborator
(spec §1 lists filesystem path globbing as out of scope): returns the list
of matches, possibly empty. -/
abbrev Globber := Str → List Str

/-- `os.path.join(part, p)` with `os.path.normcase`/`os.path.relpath`
modelled as the identity (paths are abstract tokens): joining with the
current-directory entry `"."` gives the path back. -/
def pathJoin (dir p : Str) : Str :=
  if dir = ".".data then p else dir ++ '/' :: p

/-- `MakeUtil.getSearchPath(macros)` (makeUtil.py lines 269-291): the
current directory (modelled as `"."`) followed by the `VPATH` entries,
split by the first of `;`, `:`, space that yields more than one piece. -/
def getSearchPath (macros : Macros) : List Str :=
  match macros "VPATH".data with
  | none => [".".data]
  | some vpath =>
    let s1 := removeEmpty (escapeSafeSplit ';' vpath [])
    let split :=
      if s1.length > 1 then s1
      else
        let s2 := removeEmpty (escapeSafeSplit ':' vpath [])
        if s2.length > 1 then s2
        else removeEmpty (escapeSafeSplit ' ' vpath [])
    ".".data :: split

/-- `MakeUtil.findFile(givenPath, macros)` (lines 297-306): the first
search-path directory in which the file exists, or `none`. -/
def findFileGo (fs : FileSys) (p : Str) : List Str → Option Str
  | [] => none
  | part :: rest =>
    let path := pathJoin part p
    if (fs path).isSome then some path else findFileGo fs p rest

def findFile (fs : FileSys) (macros : Macros) (givenPath : Str) : Option Str :=
  findFileGo fs givenPath (getSearchPath macros)

/-- `MakeUtil.glob(text, macros)` (lines 309-325): glob through the search
path; acts like a system glob in that an empty result set falls back to
`[text]`. -/
def mkGlob (g : Globber) (macros : Macros) (text : Str) : List Str :=
  match macros "VPATH".data with
  | none =>
    let r := g text
    if r.isEmpty then [text] else r
  | some _ =>
    let r := g text ++ ((getSearchPath macros).map (fun part => g (pathJoin part text))).flatten
    if r.isEmpty then [text] else r

/-- `MakeUtil.globArgs(arr, macros, excludeFirst)` (lines 328-339): glob
every unquoted element; `isFirst` is cleared only when an element is passed
through unglobbed, exactly as in the source. -/
def globArgsGo (g : Globber) (macros : Macros) : List Str → Bool → List Str
  | [], _ => []
  | part :: rest, isFirst =>
    if !isQuoted (pyStrip part) && !isFirst then
      mkGlob g macros part ++ globArgsGo g macros rest isFirst
    else
      part :: globArgsGo g macros rest false

def globArgs (g : Globber) (macros : Macros) (arr : List Str) (excludeFirst : Bool) : List Str :=
  globArgsGo g macros arr excludeFirst

/-- `MAGIC_TARGETS` (makeUtil.py lines 41-44). -/
def magicTargets : List Str := [".POSIX".data, ".SUFFIXES".data]

/-- `MakeUtil.isPhony(target, targets)` (lines 445-451).  A `.PHONY` entry
stored as a pattern rule would unpack to a tuple whose members are lists,
so string membership is always false; modelled as the empty registry. -/
def isPhony (target : Str) (targets : RuleDB) : Bool :=
  match dbGet targets ".PHONY".data with
  | none => false
  | some (RuleEntry.plain phonyTargets _) =>
    target ∈ phonyTargets || target ∈ magicTargets
  | some (RuleEntry.pattern _ _ _) => target ∈ magicTargets

/-! ### `MakeUtil.generateRecipeFor` (implicit-rule synthesis) -/

/-- The pattern-rule branch of the candidate scan (lines 356-381): iterate
over the generated-name tokens of one pattern rule, threading the mutable
`deps` rebinding.  An exact (non-wildcard) hit executes
`self.patsubst("%", "*", dependsOn.join(" "))` where `dependsOn` is an
unassigned local, raising `NameError` — modelled as `none`. -/
def patternMatches (target : Str) :
    List Str → List Str → List Str → Option (List (List Str × List Str))
  | [], _, _ => some []
  | targetTest :: more, deps, rules =>
    if targetTest = target then none
    else if !targetTest.contains '%' then patternMatches target more deps rules
    else
      let sepIndex := charIndex targetTest '%'
      let beforeContent := targetTest.take sepIndex
      let afterContent := targetTest.drop (sepIndex + 1)
      if pyStartsWith target beforeContent && pyEndsWith target afterContent then
        let newReplacement := (target.drop sepIndex).take
          (target.length - afterContent.length - sepIndex)
        let deps' := splitChar
          (List.intercalate newReplacement (escapeSafeSplit '%' (joinSpace deps) []))
          ' '
        match patternMatches target more deps' rules with
        | none => none
        | some restCands => some ((deps', rules) :: restCands)
      else
        patternMatches target more deps rules

/-- Candidates contributed by one rule-database key (the body of the
`for key in targets.keys()` loop, lines 352-416).  The shape mismatches
that would crash the Python tuple unpacking are modelled as `none`; the
final `elif` compares `os.path.abspath(key)` with `os.path.abspath(target)`,
modelled as string equality of the abstract path tokens. -/
def candidatesForKey (target : Str) (targets : RuleDB) (key : Str)
    (entry : RuleEntry) : Option (List (List Str × List Str)) :=
  if isPatternSubstRecipe key then
    match entry with
    | RuleEntry.pattern generates pdeps rules => patternMatches target generates pdeps rules
    | RuleEntry.plain _ _ => none
  else if pyStartsWith key ".".data && (key.drop 1).contains '.' then
    let parts := splitChar (key.drop 1) '.'
    let requires := '.' :: pyStrip (parts.headD [])
    let creates := '.' :: pyStrip ((parts.get? 1).getD [])
    if parts.length > 2 then some []
    else
      let valid : List Str :=
        match dbGet targets ".SUFFIXES".data with
        | some (RuleEntry.plain d _) => d
        | _ => []
      if creates ∉ valid || requires ∉ valid then some []
      else if pyEndsWith target creates then
        match entry with
        | RuleEntry.plain deps rules =>
          let newDeps := deps.filter (fun d => d ≠ [])
          let withoutExtension := target.take (target.length - creates.length)
          some [(newDeps ++ [withoutExtension ++ requires], rules)]
        | RuleEntry.pattern _ _ _ => none
      else some []
  else if key = target then
    match entry with
    | RuleEntry.plain deps recipe => some [(deps, recipe)]
    | RuleEntry.pattern _ _ _ => none
  else some []

/-- Collect `potentialNewRules` over all keys in database order. -/
def collectCandidates (target : Str) (targets : RuleDB) :
    List (Str × RuleEntry) → Option (List (List Str × List Str))
  | [] => some []
  | (key, entry) :: rest =>
    match candidatesForKey target targets key entry with
    | none => none
    | some cs =>
      match collectCandidates target targets rest with
      | none => none
      | some more => some (cs ++ more)

/-- The number of prerequisites of a candidate that are neither phony nor
found on disk / the search path, computed over the glob-expanded
prerequisite list (lines 420-431). -/
def unsatCount (g : Globber) (fs : FileSys) (macros : Macros)
    (targets : RuleDB) (deps : List Str) : Nat :=
  ((globArgs g macros (removeEmpty deps) false).filter
    (fun dep => !isPhony dep targets && (findFile fs macros dep).isNone)).length

/-- The selection loop over `potentialNewRules` (lines 418-440): keep the
candidate with the fewest unsatisfiable prerequisites, strictly-fewer
replacing, so ties keep the first-found candidate; each improvement is
memoized into the rule database at once. -/
def selectRule (g : Globber) (fs : FileSys) (macros : Macros) (target : Str) :
    RuleDB → Option Nat → Bool → List (List Str × List Str) → Bool × RuleDB
  | targets, _, generated, [] => (generated, targets)
  | targets, fewest, generated, (deps, rules) :: more =>
    let unsat := unsatCount g fs macros targets deps
    let better :=
      match fewest with
      | none => true
      | some f => unsat < f
    if better then
      selectRule g fs macros target
        (dbSet targets target (RuleEntry.plain deps rules)) (some unsat) true more
    else
      selectRule g fs macros target targets fewest generated more

/-- `MakeUtil.generateRecipeFor(target, targets, macros)` (lines 344-440):
synthesize a rule for `target` from pattern and suffix rules, choosing the
candidate with the fewest unsatisfiable prerequisites, and memoize it into
the database; returns whether `targets` now contains a recipe for
`target`. -/
def generateRecipeFor (g : Globber) (fs : FileSys) (target : Str)
    (targets : RuleDB) (macros : Macros) : Option (Bool × RuleDB) :=
  if dbHas targets target then some (true, targets)
  else
    match collectCandidates target targets targets with
    | none => none
    | some cands => some (selectRule g fs macros target targets none false cands)

/-! ### `MakeUtil.prepareGenerateTarget` (staleness resolver) -/

/-- Result of the staleness resolver: whether the target needs building,
the (possibly memoized) rule database, and the warnings / errors emitted. -/
abbrev PrepRes := Bool × RuleDB × List MakeWarn × List MakeErr

/-- The prerequisite loop of `prepareGenerateTarget` (makeUtil.py lines
495-516): any phony, missing or newer prerequisite — or one that itself
needs building, checked through `recurse` with the current target added to
the visiting set — makes the target stale. -/
def prepGenDeps (fs : FileSys) (macros : Macros)
    (recurse : Str → RuleDB → List Str → Option PrepRes)
    (selfMTime : Int) (target : Str) :
    List Str → RuleDB → List Str → List MakeWarn → List MakeErr → Option PrepRes
  | [], targets, _, warns, errs => some (false, targets, warns, errs)
  | dep :: rest, targets, visiting, warns, errs =>
    if isPhony dep targets then some (true, targets, warns, errs)
    else
      match findFile fs macros dep with
      | none => some (true, targets, warns, errs)
      | some pathToOther =>
        if selfMTime < (fs pathToOther).getD 0 then some (true, targets, warns, errs)
        else
          match recurse dep targets (target :: visiting) with
          | none => none
          | some (needDep, targets', w2, e2) =>
            if needDep then some (true, targets', warns ++ w2, errs ++ e2)
            else prepGenDeps fs macros recurse selfMTime target rest targets' visiting
              (warns ++ w2) (errs ++ e2)

/-- `MakeUtil.prepareGenerateTarget(target, targets, macros, visitingSet)`
(lines 455-516): decide whether `target` needs (re)generation, creating an
implicit rule for it if necessary.  Revisiting a target on the current
recursion path logs a non-fatal circular-dependency warning and falls back
to "needs building iff the file does not exist".  A target with no rule
entry after synthesis is a fatal "no rule to make" error when it does not
exist, and up to date when it does.  `fuel` bounds the recursion depth;
`none` models exhausted fuel or a crash inside rule synthesis. -/
def prepareGenerateTarget (g : Globber) (fs : FileSys) (macros : Macros) :
    Nat → Str → RuleDB → List Str → Option PrepRes
  | 0, _, _, _ => none
  | fuel + 1, target₀, targets, visiting =>
    let target := pyStrip target₀
    if target ∈ visiting then
      some ((findFile fs macros target).isNone, targets, [MakeWarn.circular target], [])
    else
      let step1 : Option RuleDB :=
        if dbHas targets target then some targets
        else (generateRecipeFor g fs target targets macros).map Prod.snd
      match step1 with
      | none => none
      | some targets =>
        let targetPath := findFile fs macros target
        match dbGet targets target with
        | none =>
          if targetPath.isSome then some (false, targets, [], [])
          else some (false, targets, [], [MakeErr.noRule target])
        | some (RuleEntry.pattern _ _ _) => none
          -- `deps, _ = targets[target]` on a pattern-shaped value binds a
          -- tuple where a list is expected; the later iteration crashes
        | some (RuleEntry.plain deps₀ _) =>
          let deps := globArgs g macros (removeEmpty deps₀) false
          match targetPath with
          | none => some (true, targets, [], [])
          | some tp =>
            let selfMTime := (fs tp).getD 0
            if isPhony target targets then some (true, targets, [], [])
            else
              prepGenDeps fs macros (prepareGenerateTarget g fs macros fuel)
                selfMTime target deps targets visiting [] []

/-- The circular rule database `A → B → A` of C1. -/
def cycleDB : RuleDB :=
  [("A".data, RuleEntry.plain ["B".data] []),
   ("B".data, RuleEntry.plain ["A".data] [])]

/-- A filesystem with no files at all. -/
def emptyFS : FileSys := fun _ => none

/-- A filesystem in which both `A` and `B` exist with equal timestamps. -/
def abFS : FileSys := fun p => if p = "A".data || p = "B".data then some 0 else none

/-! ### `MakeUtil.satisfyDependencies` (parallel build scheduler)

The scheduler is modelled sequentially: a worker thread's body runs at its
`start()` call and `join` is the matching decrement of the job counter —
the lock-protected check-and-increment sections are atomic steps of this
interleaving.  Observable actions are recorded as events.  Command
execution (`subprocess.run` / the embedded shell) is the external
collaborator `exec`; the working-directory restore after every recipe line
is external I/O and not modelled. -/

/-- Observable scheduler actions: spawning a worker for a prerequisite
(recording the running-job count seen inside the lock before the
increment), echoing a command, and running a command. -/
inductive SchedEvent where
  | spawn (dep : Str) (preJobs : Nat)
  | echo (cmd : Str)
  | run (cmd : Str)
  deriving DecidableEq, Repr

/-- The `MakeUtil` fields consulted by the scheduler: `maxJobs`, `silent`,
`justPrint` and the external command executor (returning an exit status). -/
structure SchedCfg where
  maxJobs : Nat
  silent : Bool
  justPrint : Bool
  exec : Str → Int

/-- The shared mutable state threaded through the scheduler: the rule
database, the running-job counter `currentJobs`, the keys ever inserted
into `pending` (a completed job's key keeps sitting in the dict with value
`None`, so `dep not in self.pending` stays false forever), the shared
macro table, and the emitted warnings/errors/events. -/
structure SchedState where
  db : RuleDB
  jobs : Nat
  pendingKeys : List Str
  macros : Macros
  warns : List MakeWarn
  errs : List MakeErr
  events : List SchedEvent

/-- The prerequisite-scheduling loop of `satisfyDependencies` (makeUtil.py
lines 541-557): for each non-blank prerequisite that needs building, either
spawn a worker — only when `currentJobs < maxJobs` and the prerequisite was
never pending, checking and incrementing inside the lock — or fall back to
a synchronous recursive build in the caller's thread.  Returns the
`pendingJobs` list and the updated state. -/
def satisfyDeps (cfg : SchedCfg) (g : Globber) (fs : FileSys)
    (recurse : Str → SchedState → Option (Bool × SchedState)) (prepFuel : Nat) :
    List Str → SchedState → List Str → Option (List Str × SchedState)
  | [], st, pending => some (pending, st)
  | dep :: rest, st, pending =>
    if pyStrip dep ≠ [] then
      match prepareGenerateTarget g fs st.macros prepFuel dep st.db [] with
      | none => none
      | some (need, db', w, e) =>
        let st := { st with db := db', warns := st.warns ++ w, errs := st.errs ++ e }
        if need then
          if st.jobs < cfg.maxJobs ∧ dep ∉ st.pendingKeys then
            let st' := { st with
              jobs := st.jobs + 1,
              pendingKeys := st.pendingKeys ++ [dep],
              events := st.events ++ [SchedEvent.spawn dep st.jobs] }
            satisfyDeps cfg g fs recurse prepFuel rest st' (pending ++ [dep])
          else
            match recurse dep st with
            | none => none
            | some (_, st') => satisfyDeps cfg g fs recurse prepFuel rest st' pending
        else satisfyDeps cfg g fs recurse prepFuel rest st pending
    else satisfyDeps cfg g fs recurse prepFuel rest st pending

/-- The `start()` loop (lines 559-560): each spawned worker's body runs
(sequential interleaving of the thread bodies). -/
def runPending (recurse : Str → SchedState → Option (Bool × SchedState)) :
    List Str → SchedState → Option SchedState
  | [], st => some st
  | job :: rest, st =>
    match recurse job st with
    | none => none
    | some (_, st') => runPending recurse rest st'

/-- The `join()` loop (lines 562-569): one lock-protected decrement of the
job counter per spawned worker. -/
def joinPending : List Str → SchedState → SchedState
  | [], st => st
  | _ :: rest, st => joinPending rest { st with jobs := st.jobs - 1 }

/-- The recipe loop of `satisfyDependencies` (lines 580-618): expand each
command with the shared table, honour the `@` (silent) and `-` (tolerant)
prefixes, echo unless silent, and run through the external executor; a
non-zero status on a non-tolerant line reports a fatal command failure. -/
def runCommands (cfg : SchedCfg) (mcfg : MacroCfg) (cmds : MacroCmds)
    (expFuel : Nat) : List Str → SchedState → Option SchedState
  | [], st => some st
  | command₀ :: rest, st =>
    match expandMacroUsages mcfg cmds expFuel command₀ st.macros with
    | none => none
    | some (c1, e) =>
      let command₁ := pyStrip c1
      let stripped := pyStartsWith command₁ "@".data
      let command₂ := if stripped then command₁.drop 1 else command₁
      let echoEv : List SchedEvent :=
        if stripped then [] else if !cfg.silent then [SchedEvent.echo command₂] else []
      let haltOnFail := !pyStartsWith command₂ "-".data
      let command := if pyStartsWith command₂ "-".data then command₂.drop 1 else command₂
      -- the four source continuations (justPrint / host shell success /
      -- failure / tolerant failure) differ only in whether a fatal
      -- command-failure error is recorded; they are merged into the single
      -- tail call below
      let failErrs : List MakeErr :=
        if cfg.justPrint then []
        else if cfg.exec command ≠ 0 ∧ haltOnFail then
          [MakeErr.commandFailed command (cfg.exec command)]
        else []
      runCommands cfg mcfg cmds expFuel rest
        { st with
          errs := (st.errs ++ e) ++ failErrs,
          events := (st.events ++ echoEv) ++ [SchedEvent.run command] }

/-- `MakeUtil.satisfyDependencies(target, targets, macros)` (lines
520-619): build `target` if `prepareGenerateTarget` says it is needed —
first satisfying every prerequisite (spawned or inline), then joining the
spawned workers, then injecting the automatic variables `@`, `^`, `<` into
the shared table and running each recipe line.  Returns whether anything
was generated. -/
def satisfyDependencies (cfg : SchedCfg) (g : Globber) (fs : FileSys)
    (mcfg : MacroCfg) (cmds : MacroCmds) :
    Nat → Str → SchedState → Option (Bool × SchedState)
  | 0, _, _ => none
  | fuel + 1, target₀, st =>
    let target := pyStrip target₀
    match prepareGenerateTarget g fs st.macros (fuel + 1) target st.db [] with
    | none => none
    | some (need, db', w, e) =>
      let st := { st with db := db', warns := st.warns ++ w, errs := st.errs ++ e }
      if !need then some (false, st)
      else
        let targetPath := findFile fs st.macros target
        match dbGet st.db target with
        | none => none  -- `targets[target]` raises KeyError
        | some (RuleEntry.pattern _ _ _) => none
        | some (RuleEntry.plain deps₀ commands) =>
          let deps := globArgs g st.macros (removeEmpty deps₀) false
          let depPaths := deps.map (fun dep =>
            if isPhony dep st.db then dep else (findFile fs st.macros dep).getD dep)
          match satisfyDeps cfg g fs (satisfyDependencies cfg g fs mcfg cmds fuel)
              (fuel + 1) deps st [] with
          | none => none
          | some (pendingJobs, st) =>
            match runPending (satisfyDependencies cfg g fs mcfg cmds fuel)
                pendingJobs st with
            | none => none
            | some st =>
              let st := joinPending pendingJobs st
              let m1 := mupd st.macros "@".data (targetPath.getD target)
              let m2 := mupd m1 "^".data (joinSpace depPaths)
              let m3 := if deps.length ≥ 1 then mupd m2 "<".data (depPaths.headD []) else m2
              let st := { st with macros := m3 }
              match runCommands cfg mcfg cmds (fuel + 1) commands st with
              | none => none
              | some st => some (true, st)

/-- The `MacroUtil` configuration installed by `MakeUtil.__init__`
(makeUtil.py lines 148-161): conditionals enabled, macro definitions
forbidden on recipe lines (lines starting with the recipe lead character
`'\t'`), lazy evaluation for recipe lines, and undefined macros expanding
to the empty string. -/
def makeUtilMacroCfg : MacroCfg :=
  { lazyConds := [fun line => pyStartsWith line "\t".data],
    defConds := [fun line => !pyStartsWith line "\t".data],
    conditionals := true,
    expandUndefinedMacrosTo := some [] }

/-- Run `expandAndDefineMacros` on `contents`, then expand the reference
text `ref` with the resulting table (used to state C3). -/
def expandAfterDefs (cfg : MacroCfg) (cmds : MacroCmds) (fuel : Nat)
    (contents ref : Str) (m : Macros) : Option Str :=
  match expandAndDefineMacros cfg cmds fuel contents m with
  | none => none
  | some (_, m', _) => (expandMacroUsages cfg cmds fuel ref m').map Prod.fst

/-- Run `expandAndDefineMacros` on `contents` and look up `key` in the
resulting table (used to state C3/C4). -/
def assignResult (cmds : MacroCmds) (contents : Str) (m : Macros) (key : Str) :
    Option (Option Str) :=
  (expandAndDefineMacros makeUtilMacroCfg cmds 10 contents m).map
    (fun out => out.2.1 key)

/-- A two-target build: `out` is produced from the existing file `in` by one
copy command (used to witness C7 on a concrete sequential run). -/
def seqDB : RuleDB :=
  [("out".data, RuleEntry.plain ["in".data] ["cp in out".data])]

/-- A filesystem in which only the source file `in` exists. -/
def seqFS : FileSys := fun p => if p = "in".data then some 0 else none

/-- A one-job scheduler configuration whose commands all succeed. -/
def seqCfg : SchedCfg :=
  { maxJobs := 1, silent := false, justPrint := false, exec := fun _ => 0 }

/-- The scheduler's starting state for the `seqDB` build: one running job
(the caller's thread), nothing pending, no events. -/
def seqSt : SchedState :=
  { db := seqDB, jobs := 1, pendingKeys := [], macros := fun _ => none,
    warns := [], errs := [], events := [] }

/-- The final state of the concrete `seqDB` build of `out`. -/
def seqResult : Bool × SchedState :=
  (satisfyDependencies seqCfg (fun _ => []) seqFS makeUtilMacroCfg
    (fun _ => none) 5 "out".data seqSt).getD (false, seqSt)

/-- Reference splitter used to characterise `argumentSplit` away from macro
syntax: split at every comma. -/
def commaSplitGo : Str → Str → List Str × Str
  | [], cur => ([], cur)
  | c :: rest, cur =>
    if c = ',' then
      let r := commaSplitGo rest []
      (cur :: r.1, r.2)
    else commaSplitGo rest (cur ++ [c])

/-! Scheduler invariants for C7. -/

/-- Whether an event is the spawning of a worker thread. -/
def isSpawn : SchedEvent → Bool
  | SchedEvent.spawn _ _ => true
  | _ => false

/-- Number of worker threads spawned in a trace. -/
def spawnCount (l : List SchedEvent) : Nat :=
  (l.filter isSpawn).length

/-- Every spawn in the trace saw a running-job count below `max` inside the
lock. -/
def spawnsGuarded (max : Nat) (l : List SchedEvent) : Prop :=
  ∀ d p, SchedEvent.spawn d p ∈ l → p < max

/-- The inductive contract of a recursive scheduler call: it conserves the
job counter, keeps every spawn guarded, and — with a budget of one and one
running job — spawns nothing. -/
def SchedOk (max : Nat) (recurse : Str → SchedState → Option (Bool × SchedState)) : Prop :=
  ∀ dep st r, recurse dep st = some r →
    r.2.jobs = st.jobs ∧
    (spawnsGuarded max st.events → spawnsGuarded max r.2.events) ∧
    (max = 1 → st.jobs = 1 → spawnCount r.2.events = spawnCount st.events)

/-- First element of the list minimizing `f` (earliest on ties) — the
specification-side notion used to state C5. -/
def argminFirst (f : α → Nat) : List α → Option α
  | [] => none
  | x :: rest =>
    match argminFirst f rest with
    | none => some x
    | some y => if f x ≤ f y then some x else some y

/-- Two pattern rules matching `a.o`: one whose substituted prerequisite
`a.c` exists, one whose prerequisite `a.n` does not (C5's concrete
scenario), in both orders. -/
def demoPatternDB : RuleDB :=
  [("%.o: %.c".data, RuleEntry.pattern ["%.o".data] ["%.c".data] ["cc".data]),
   ("%.o: %.n".data, RuleEntry.pattern ["%.o".data] ["%.n".data] ["bad".data])]

def demoPatternDBFlipped : RuleDB :=
  [("%.o: %.n".data, RuleEntry.pattern ["%.o".data] ["%.n".data] ["bad".data]),
   ("%.o: %.c".data, RuleEntry.pattern ["%.o".data] ["%.c".data] ["cc".data])]

/-- A filesystem containing exactly `a.c`. -/
def demoFS : FileSys := fun p => if p = "a.c".data then some 0 else none

example : (argumentSplit "a,b(1,2),$(f x,y),c".data).1 =
    ["a".data, "b(1".data, "2)".data, "$(f x,y)".data, "c".data] := by decide

example : joinComma ["a".data, "b".data, []] = "a,b,".data := by decide

lemma joinComma_cons_ne (a : Str) (l : List Str) (h : l ≠ []) :
    joinComma (a :: l) = a ++ ',' :: joinComma l := by
  cases l with
  | nil => exact absurd rfl h
  | cons b t => rfl

lemma joinComma_snoc_push (l : List Str) (x : Str) (c : Char) :
    joinComma (l ++ [x ++ [c]]) = joinComma (l ++ [x]) ++ [c] := by
  induction l with
  | nil => simp [joinComma]
  | cons a t ih =>
    rw [List.cons_append, List.cons_append,
      joinComma_cons_ne a _ (by simp), joinComma_cons_ne a _ (by simp), ih]
    simp

lemma joinComma_snoc_empty (l : List Str) (h : l ≠ []) :
    joinComma (l ++ [[]]) = joinComma l ++ [','] := by
  induction l with
  | nil => exact absurd rfl h
  | cons a t ih =>
    cases t with
    | nil => simp [joinComma]
    | cons b t' =>
      rw [List.cons_append, joinComma_cons_ne a _ (by simp),
        joinComma_cons_ne a _ (by simp), ih (by simp)]
      simp

lemma argumentSplitGo_join (s : Str) : ∀ args argBuff buff paren inMacro,
    joinComma ((argumentSplitGo s args argBuff buff paren inMacro).1 ++
      [(argumentSplitGo s args argBuff buff paren inMacro).2.1]) =
    joinComma (args ++ [argBuff]) ++ s := by
  induction s with
  | nil => intro args argBuff buff paren inMacro; simp [argumentSplitGo]
  | cons c rest ih =>
    intro args argBuff buff paren inMacro
    simp only [argumentSplitGo]
    split
    next h =>
      have hc : c = ',' := by
        simp only [Bool.and_eq_true, decide_eq_true_eq] at h
        exact h.1
      subst hc
      rw [ih, joinComma_snoc_empty _ (by simp), List.append_assoc]
      rfl
    next _ =>
      split
      · rw [ih, joinComma_snoc_push, List.append_assoc]; rfl
      · split
        · rw [ih, joinComma_snoc_push, List.append_assoc]; rfl
        · split
          · rw [ih, joinComma_snoc_push, List.append_assoc]; rfl
          · split
            · split
              · rw [ih, joinComma_snoc_push, List.append_assoc]; rfl
              · rw [ih, joinComma_snoc_push, List.append_assoc]; rfl
            · split
              · rw [ih, joinComma_snoc_push, List.append_assoc]; rfl
              · rw [ih, joinComma_snoc_push, List.append_assoc]; rfl

example : findMacroSet "X  +=  b".data = some (1, some '+', 7) := by decide

example : findMacroSet "Y=$(X)".data = some (1, none, 2) := by decide

example : isMacroDefRe "X+=b".data = true := by decide

example : pyResplit "a  b c".data = ["a".data, "b".data, "c".data] := by decide

example : pyResplit " a ".data = [[], "a".data, []] := by decide

example : pyResplit [] = [[]] := by decide

example : pyInt? " -12 ".data = some (-12) := by decide

example : pyInt? "0".data = some 0 := by decide

example : pyInt? "x1".data = none := by decide

example : pyGet ["a".data, "b".data] (-1) = some "b".data := by decide

example : pyGet ["a".data, "b".data] 2 = none := by decide

example : pySlice ["a", "b", "c", "d"] 1 3 = ["b", "c"] := by decide

example : (getTargetActions "a b:\n\tcmd".data).2.1 = ["b".data, "a".data] := by decide

example : (getTargetActions "a: x\n\tc1\nb:\n.PHONY: a".data).2.1
    = ["a".data, "b".data, ".PHONY".data] := by decide

/-- C9: for every input line, every lazy-evaluation configuration and every
`force` flag, the string returned by `stripComments` is a character-for-character
prefix of the input line — comment stripping only truncates at an index
(`line[:trimToIndex]`), never reordering, inserting or rewriting characters. -/
theorem stripComments_isPrefix (cfg : MacroCfg) (line : Str) (force : Bool) :
    (stripComments cfg line force).1 <+: line := by
  unfold stripComments
  exact List.take_prefix _ _

/-- C10: for every argument string (in particular every one whose macro
brackets are balanced), joining the list returned by `argumentSplit` with a
single comma reconstructs the original string exactly: only the top-level
separator commas are consumed, and commas nested inside a macro invocation
stay inside their argument. -/
theorem argumentSplit_join (s : Str) :
    joinComma (argumentSplit s).1 = s := by
  have h := argumentSplitGo_join s [] [] [] 0 false
  unfold argumentSplit
  simpa [joinComma] using h

/-! Auxiliary lemmas: behaviour of the expansion engine and of
`argumentSplit` on text containing no `$` character. -/

lemma expandGo_no_dollar (cfg : MacroCfg) (cmds : MacroCmds) (er : ExpandRec)
    (fullLine : Str) (macros : Macros) (s : Str) (h : ∀ c ∈ s, c ≠ '$') :
    ∀ expanded buff afterBuff errs,
      expandGo cfg cmds er fullLine macros s expanded buff afterBuff 0 false errs
        = some (expanded, buff ++ s, afterBuff, 0, errs) := by
  induction s with
  | nil => intro e b a errs; simp [expandGo]
  | cons c rest ih =>
    intro e b a errs
    have hc : c ≠ '$' := h c (List.mem_cons_self _ _)
    have hrest : ∀ x ∈ rest, x ≠ '$' := fun x hx => h x (List.mem_cons_of_mem _ hx)
    have step : expandGo cfg cmds er fullLine macros (c :: rest) e b a 0 false errs
        = expandGo cfg cmds er fullLine macros rest e (b ++ [c]) a 0 false errs := by
      simp [expandGo, decide_eq_false hc]
    rw [step, ih hrest]
    simp

lemma expandMacroUsages_no_dollar (cfg : MacroCfg) (cmds : MacroCmds)
    (fuel : Nat) (line : Str) (macros : Macros) (h : ∀ c ∈ line, c ≠ '$') :
    expandMacroUsages cfg cmds (fuel + 1) line macros = some (line, []) := by
  have h' : ∀ c ∈ line ++ [' '], c ≠ '$' := by
    intro c hc
    rcases List.mem_append.mp hc with h1 | h1
    · exact h c h1
    · simp at h1; subst h1; decide
  simp only [expandMacroUsages]
  rw [expandGo_no_dollar cfg cmds _ _ macros _ h']
  simp

lemma mem_pyLstrip {c : Char} {s : Str} (h : c ∈ pyLstrip s) : c ∈ s :=
  (List.dropWhile_sublist _).subset h

lemma mem_pyStrip {c : Char} {s : Str} (h : c ∈ pyStrip s) : c ∈ s := by
  unfold pyStrip pyRstrip at h
  have h1 : c ∈ (pyLstrip s).reverse := by
    have := (List.dropWhile_sublist (l := (pyLstrip s).reverse)
      (fun c => isPySpace c)).subset (List.mem_reverse.mp h)
    exact this
  exact mem_pyLstrip (List.mem_reverse.mp h1)

lemma argumentSplitGo_no_dollar (s : Str) (h : ∀ c ∈ s, c ≠ '$') :
    ∀ args argBuff buff,
      argumentSplitGo s args argBuff buff 0 false
        = (args ++ (commaSplitGo s argBuff).1, (commaSplitGo s argBuff).2, 0) := by
  induction s with
  | nil => intro args argBuff buff; simp [argumentSplitGo, commaSplitGo]
  | cons c rest ih =>
    intro args argBuff buff
    have hc : c ≠ '$' := h c (List.mem_cons_self _ _)
    have hrest : ∀ x ∈ rest, x ≠ '$' := fun x hx => h x (List.mem_cons_of_mem _ hx)
    by_cases hcomma : c = ','
    · subst hcomma
      have step : argumentSplitGo (',' :: rest) args argBuff buff 0 false
          = argumentSplitGo rest (args ++ [argBuff]) [] buff 0 false := by
        simp [argumentSplitGo]
      rw [step, ih hrest]
      simp [commaSplitGo]
    · have step : argumentSplitGo (c :: rest) args argBuff buff 0 false
          = argumentSplitGo rest args (argBuff ++ [c]) (buff ++ [c]) 0 false := by
        simp [argumentSplitGo, decide_eq_false hc, decide_eq_false hcomma]
      rw [step, ih hrest]
      simp [commaSplitGo, if_neg hcomma]

lemma argumentSplit_no_dollar (s : Str) (h : ∀ c ∈ s, c ≠ '$') :
    argumentSplit s
      = ((commaSplitGo s []).1 ++ [(commaSplitGo s []).2], []) := by
  unfold argumentSplit
  rw [argumentSplitGo_no_dollar s h]
  simp

lemma commaSplitGo_append_free (ns : Str) (h : ∀ c ∈ ns, c ≠ ',') :
    ∀ rest cur, commaSplitGo (ns ++ rest) cur = commaSplitGo rest (cur ++ ns) := by
  induction ns with
  | nil => intro rest cur; simp
  | cons c t ih =>
    intro rest cur
    have hc : c ≠ ',' := h c (List.mem_cons_self _ _)
    have ht : ∀ x ∈ t, x ≠ ',' := fun x hx => h x (List.mem_cons_of_mem _ hx)
    have e1 : (c :: t) ++ rest = c :: (t ++ rest) := rfl
    have step : commaSplitGo (c :: (t ++ rest)) cur = commaSplitGo (t ++ rest) (cur ++ [c]) := by
      simp [commaSplitGo, if_neg hc]
    rw [e1, step, ih ht]
    simp

lemma joinComma_commaSplit (text : Str) (h : ∀ c ∈ text, c ≠ '$') :
    joinComma ((commaSplitGo text []).1 ++ [(commaSplitGo text []).2]) = text := by
  have h1 := argumentSplit_join text
  rw [argumentSplit_no_dollar text h] at h1
  simpa using h1

lemma pyResplitGo_ne_nil : ∀ (s : Str) (mode : Bool) (cur : Str),
    pyResplitGo s mode cur ≠ [] := by
  intro s
  induction s with
  | nil => intro mode cur; cases mode <;> simp [pyResplitGo]
  | cons c rest ih =>
    intro mode cur
    cases mode
    · by_cases hsp : isPySpace c = true
      · simpa [pyResplitGo, hsp] using ih true cur
      · simpa [pyResplitGo, hsp] using ih false (cur ++ [c])
    · by_cases hsp : isPySpace c = true
      · simpa [pyResplitGo, hsp] using ih true cur
      · simp [pyResplitGo, hsp]

lemma pyResplit_ne_nil (s : Str) : pyResplit s ≠ [] :=
  pyResplitGo_ne_nil s false []

lemma pyGet_nat_lt {α : Type _} (l : List α) (k : Nat) (h : k < l.length) :
    pyGet l (k : Int) = l.get? k := by
  have h0 : ¬((k : Int) < 0) := by omega
  simp only [pyGet, h0, if_false]
  rw [if_pos ⟨by omega, by exact_mod_cast h⟩]
  simp

lemma pyGet_nat_ge {α : Type _} (l : List α) (k : Nat) (h : l.length ≤ k) :
    pyGet l (k : Int) = none := by
  have h0 : ¬((k : Int) < 0) := by omega
  simp only [pyGet, h0, if_false]
  rw [if_neg]
  intro hcon
  have h2 := hcon.2
  rw [Nat.cast_lt] at h2
  omega

lemma pyGet_neg_one {α : Type _} (l : List α) (h : l ≠ []) :
    pyGet l (-1) = l.getLast? := by
  have hl : 0 < l.length := List.length_pos.mpr h
  have hneg : ((-1 : Int) < 0) := by norm_num
  simp only [pyGet, hneg, if_true]
  rw [if_pos ⟨by omega, by omega⟩]
  rw [List.getLast?_eq_getElem?]
  rw [List.get?_eq_getElem?]
  congr 1
  omega

/-! Name bookkeeping of `getTargetActions` for C8: the `targetNames` list
only ever receives names not starting with `.`, `specialTargetNames` only
names starting with `.`. -/

lemma gtaGenerates_names (dependsOn : List Str) :
    ∀ (gens : List Str) (db : RuleDB) (cr tn stn : List Str),
      (∀ t ∈ tn, pyStartsWith t ".".data = false) →
      (∀ t ∈ stn, pyStartsWith t ".".data = true) →
      (∀ t ∈ (gtaGenerates dependsOn gens db cr tn stn).2.2.1,
        pyStartsWith t ".".data = false) ∧
      (∀ t ∈ (gtaGenerates dependsOn gens db cr tn stn).2.2.2,
        pyStartsWith t ".".data = true) := by
  intro gens
  induction gens with
  | nil =>
    intro db cr tn stn h1 h2
    exact ⟨h1, h2⟩
  | cons g more ih =>
    intro db cr tn stn h1 h2
    simp only [gtaGenerates]
    split
    · next hdot =>
      exact ih _ _ _ _ h1 (by
        intro t ht
        rcases List.mem_append.mp ht with h | h
        · exact h2 t h
        · simp at h
          subst h
          exact hdot)
    · next hdot =>
      simp only [Bool.not_eq_true] at hdot
      exact ih _ _ _ _ (by
        intro t ht
        rcases List.mem_append.mp ht with h | h
        · exact h1 t h
        · simp at h
          subst h
          exact hdot) h2

lemma gtaLine_names (st : GTAState) (line : Str)
    (h1 : ∀ t ∈ st.targetNames, pyStartsWith t ".".data = false)
    (h2 : ∀ t ∈ st.specialTargetNames, pyStartsWith t ".".data = true) :
    (∀ t ∈ (gtaLine st line).targetNames, pyStartsWith t ".".data = false) ∧
    (∀ t ∈ (gtaLine st line).specialTargetNames, pyStartsWith t ".".data = true) := by
  unfold gtaLine
  split
  · exact ⟨h1, h2⟩
  · split
    · split
      · split
        · exact ⟨h1, h2⟩
        · exact ⟨h1, h2⟩
      · split
        · exact ⟨h1, h2⟩
        · exact gtaGenerates_names _ _ _ _ _ _ h1 h2
    · exact ⟨h1, h2⟩

lemma gta_foldl_names : ∀ (lines : List Str) (st : GTAState),
    (∀ t ∈ st.targetNames, pyStartsWith t ".".data = false) →
    (∀ t ∈ st.specialTargetNames, pyStartsWith t ".".data = true) →
    (∀ t ∈ (lines.foldl gtaLine st).targetNames,
      pyStartsWith t ".".data = false) ∧
    (∀ t ∈ (lines.foldl gtaLine st).specialTargetNames,
      pyStartsWith t ".".data = true) := by
  intro lines
  induction lines with
  | nil =>
    intro st h1 h2
    exact ⟨h1, h2⟩
  | cons l rest ih =>
    intro st h1 h2
    have h := gtaLine_names st l h1 h2
    exact ih _ h.1 h.2

lemma gta_ordering_split (content : Str) :
    ∃ A B, (getTargetActions content).2.1 = A ++ B ∧
      (∀ t ∈ A, pyStartsWith t ".".data = false) ∧
      (∀ t ∈ B, pyStartsWith t ".".data = true) := by
  have hinv := gta_foldl_names ((splitChar content '\n').reverse)
    ⟨[], [], [], [], []⟩ (by intro t ht; simp at ht) (by intro t ht; simp at ht)
  refine ⟨_, _, rfl, ?_, hinv.2⟩
  intro t ht
  exact hinv.1 t (List.mem_reverse.mp ht)

lemma spawnsGuarded_append_spawn {max : Nat} {l : List SchedEvent} {d : Str} {p : Nat}
    (h : spawnsGuarded max l) (hp : p < max) :
    spawnsGuarded max (l ++ [SchedEvent.spawn d p]) := by
  intro d' p' hmem
  rcases List.mem_append.mp hmem with h1 | h1
  · exact h d' p' h1
  · simp at h1
    exact h1.2 ▸ hp

lemma spawnsGuarded_append_nonspawn {max : Nat} {l l' : List SchedEvent}
    (h : spawnsGuarded max l) (h' : ∀ e ∈ l', isSpawn e = false) :
    spawnsGuarded max (l ++ l') := by
  intro d' p' hmem
  rcases List.mem_append.mp hmem with h1 | h1
  · exact h d' p' h1
  · have := h' _ h1
    simp [isSpawn] at this

lemma spawnCount_append_nonspawn {l l' : List SchedEvent}
    (h' : ∀ e ∈ l', isSpawn e = false) :
    spawnCount (l ++ l') = spawnCount l := by
  unfold spawnCount
  rw [List.filter_append]
  have : l'.filter isSpawn = [] := List.filter_eq_nil_iff.mpr (by simpa using h')
  simp [this]

lemma satisfyDeps_spec (cfg : SchedCfg) (g : Globber) (fs : FileSys)
    (recurse : Str → SchedState → Option (Bool × SchedState)) (pf : Nat)
    (hrec : SchedOk cfg.maxJobs recurse) :
    ∀ (deps : List Str) (st : SchedState) (pending : List Str)
      (r : List Str × SchedState),
      satisfyDeps cfg g fs recurse pf deps st pending = some r →
      (r.2.jobs + pending.length = st.jobs + r.1.length) ∧
      (st.jobs ≤ cfg.maxJobs → r.2.jobs ≤ cfg.maxJobs) ∧
      (spawnsGuarded cfg.maxJobs st.events → spawnsGuarded cfg.maxJobs r.2.events) ∧
      (cfg.maxJobs = 1 → st.jobs = 1 →
        spawnCount r.2.events = spawnCount st.events ∧ r.1 = pending ∧ r.2.jobs = 1) := by
  intro deps
  induction deps with
  | nil =>
    intro st pending r hr
    simp only [satisfyDeps, Option.some.injEq] at hr
    subst hr
    exact ⟨by simp, fun h => by simpa using h, fun h => by simpa using h,
      fun _ hj => ⟨rfl, rfl, by simpa using hj⟩⟩
  | cons dep rest ih =>
    intro st pending r hr
    simp only [satisfyDeps] at hr
    split at hr
    · -- pyStrip dep ≠ []
      split at hr
      · -- prepareGenerateTarget returned none
        exact absurd hr (by simp)
      · next need db' w e hprep =>
        split at hr
        · -- need = true
          split at hr
          · next hguard =>
            -- spawn branch
            have hres := ih _ _ _ hr
            refine ⟨?_, ?_, ?_, ?_⟩
            · have h1 := hres.1
              simp at h1
              omega
            · intro hle
              exact hres.2.1 (by simp; omega)
            · intro hg
              exact hres.2.2.1 (by simpa using spawnsGuarded_append_spawn hg hguard.1)
            · intro h1 hj
              exfalso
              have := hguard.1
              omega
          · next hguard =>
            -- inline recursive build
            split at hr
            · exact absurd hr (by simp)
            · next b st' hcall =>
              have hok := hrec _ _ _ hcall
              have hres := ih _ _ _ hr
              have hjobs : st'.jobs = st.jobs := by simpa using hok.1
              refine ⟨?_, ?_, ?_, ?_⟩
              · have h1 := hres.1
                omega
              · intro hle
                exact hres.2.1 (by omega)
              · intro hg
                exact hres.2.2.1 (hok.2.1 (by simpa using hg))
              · intro h1 hj
                have hcnt := hok.2.2 h1 (by simpa using hj)
                have hres4 := hres.2.2.2 h1 (by omega)
                refine ⟨?_, hres4.2.1, hres4.2.2⟩
                rw [hres4.1, hcnt]
        · -- need = false
          have hres := ih _ _ _ hr
          exact ⟨by simpa using hres.1, fun hle => hres.2.1 (by simpa using hle),
            fun hg => hres.2.2.1 (by simpa using hg),
            fun h1 hj => by
              have := hres.2.2.2 h1 (by simpa using hj)
              exact ⟨by simpa using this.1, this.2.1, this.2.2⟩⟩
    · exact ih _ _ _ hr

lemma runPending_spec (recurse : Str → SchedState → Option (Bool × SchedState))
    (max : Nat) (hrec : SchedOk max recurse) :
    ∀ (jobsList : List Str) (st st' : SchedState),
      runPending recurse jobsList st = some st' →
      st'.jobs = st.jobs ∧
      (spawnsGuarded max st.events → spawnsGuarded max st'.events) ∧
      (max = 1 → st.jobs = 1 → spawnCount st'.events = spawnCount st.events) := by
  intro jobsList
  induction jobsList with
  | nil =>
    intro st st' h
    simp only [runPending, Option.some.injEq] at h
    subst h
    exact ⟨rfl, fun h => h, fun _ _ => rfl⟩
  | cons job rest ih =>
    intro st st' h
    simp only [runPending] at h
    split at h
    · exact absurd h (by simp)
    · next b st₁ hcall =>
      have hok := hrec _ _ _ hcall
      have hres := ih _ _ h
      refine ⟨by rw [hres.1, hok.1], fun hg => hres.2.1 (hok.2.1 hg), ?_⟩
      intro h1 hj
      rw [hres.2.2 h1 (by rw [hok.1, hj]), hok.2.2 h1 hj]

lemma joinPending_eq : ∀ (l : List Str) (st : SchedState),
    joinPending l st = { st with jobs := st.jobs - l.length } := by
  intro l
  induction l with
  | nil => intro st; simp [joinPending]
  | cons x rest ih =>
    intro st
    rw [joinPending, ih]
    congr 1
    simp only [List.length_cons]
    omega

lemma runCommands_spec (cfg : SchedCfg) (mcfg : MacroCfg) (cmds : MacroCmds)
    (ef : Nat) :
    ∀ (commands : List Str) (st st' : SchedState),
      runCommands cfg mcfg cmds ef commands st = some st' →
      st'.jobs = st.jobs ∧
      (∀ max, spawnsGuarded max st.events → spawnsGuarded max st'.events) ∧
      spawnCount st'.events = spawnCount st.events := by
  intro commands
  induction commands with
  | nil =>
    intro st st' h
    simp only [runCommands, Option.some.injEq] at h
    subst h
    exact ⟨rfl, fun _ h => h, rfl⟩
  | cons c rest ih =>
    intro st st' h
    simp only [runCommands] at h
    split at h
    · exact absurd h (by simp)
    · next c1 e hexp =>
      have hspawnfree : ∀ (cmd cmd₂ : Str) (b : Bool),
          ∀ x ∈ (if b then ([] : List SchedEvent)
              else if !cfg.silent then [SchedEvent.echo cmd₂] else []) ++
            [SchedEvent.run cmd], isSpawn x = false := by
        intro cmd cmd₂ b x hx
        rcases List.mem_append.mp hx with h1 | h1
        · split at h1
          · simp at h1
          · split at h1
            · simp at h1
              subst h1
              rfl
            · simp at h1
        · simp at h1
          subst h1
          rfl
      have hres := ih _ _ h
      refine ⟨by simpa using hres.1, ?_, ?_⟩
      · intro max hg
        refine hres.2.1 max ?_
        dsimp only
        rw [List.append_assoc]
        exact spawnsGuarded_append_nonspawn hg (hspawnfree _ _ _)
      · rw [hres.2.2]
        dsimp only
        rw [List.append_assoc]
        exact spawnCount_append_nonspawn (hspawnfree _ _ _)

lemma satisfyDependencies_ok (cfg : SchedCfg) (g : Globber) (fs : FileSys)
    (mcfg : MacroCfg) (cmds : MacroCmds) :
    ∀ fuel, SchedOk cfg.maxJobs (satisfyDependencies cfg g fs mcfg cmds fuel) := by
  intro fuel
  induction fuel with
  | zero => intro dep st r hr; exact absurd hr (by simp [satisfyDependencies])
  | succ fuel ih =>
    intro dep st r hr
    simp only [satisfyDependencies] at hr
    split at hr
    · exact absurd hr (by simp)
    · next need db' w e hprep =>
      split at hr
      · -- need was false: nothing generated
        simp only [Option.some.injEq] at hr
        subst hr
        exact ⟨rfl, fun h => h, fun _ _ => rfl⟩
      · split at hr
        · exact absurd hr (by simp)
        · -- pattern-shaped entry: crash
          exact absurd hr (by simp)
        · next deps₀ commands hget =>
          split at hr
          · exact absurd hr (by simp)
          · next pendingJobs st1 hdl =>
            split at hr
            · exact absurd hr (by simp)
            · next st2 hrun =>
              split at hr
              · exact absurd hr (by simp)
              · next st3 hcmd =>
                simp only [Option.some.injEq] at hr
                subst hr
                have hdeps := satisfyDeps_spec cfg g fs _ (fuel + 1) ih _ _ _ _ hdl
                have hrp := runPending_spec _ cfg.maxJobs ih _ _ _ hrun
                have hrc := runCommands_spec cfg mcfg cmds (fuel + 1) _ _ _ hcmd
                have hjobs1 : st1.jobs = st.jobs + pendingJobs.length := by
                  have h1 := hdeps.1
                  simpa using h1
                have hjoinjobs :
                    (joinPending pendingJobs st2).jobs = st2.jobs - pendingJobs.length := by
                  rw [joinPending_eq]
                have hjoinev : (joinPending pendingJobs st2).events = st2.events := by
                  rw [joinPending_eq]
                refine ⟨?_, ?_, ?_⟩
                · have h3 := hrc.1
                  simp only [hjoinjobs] at h3
                  rw [h3, hrp.1]
                  omega
                · intro hg
                  have hg1 := hdeps.2.2.1 (by simpa using hg)
                  have hg2 := hrp.2.1 hg1
                  have h5 := hrc.2.1 cfg.maxJobs
                  apply h5
                  simpa [hjoinev] using hg2
                · intro h1 hj
                  have h4 := hdeps.2.2.2 h1 (by simpa using hj)
                  have hpend : pendingJobs = [] := h4.2.1
                  subst hpend
                  simp only [runPending, Option.some.injEq] at hrun
                  subst hrun
                  have h6 := hrc.2.2
                  simp only [hjoinev] at h6
                  rw [h6]
                  simpa using h4.1

/-- C1 (counterexample): for the prerequisite graph `A → B → A` with
neither file present, `prepareGenerateTarget` terminates with "needs
building" — but it emits **zero** circular-dependency warnings, not exactly
one: a missing target returns `True` before its prerequisites are ever
visited, so the cycle is never reached. -/
theorem prepGen_cycle_no_warning :
    prepareGenerateTarget (fun _ => []) emptyFS (fun _ => none) 5 "A".data cycleDB []
      = some (true, cycleDB, [], [])
    ∧ (prepareGenerateTarget (fun _ => []) emptyFS (fun _ => none) 5 "A".data cycleDB []).map
        (fun r => r.2.2.1.length) ≠ some 1 := by
  refine ⟨rfl, ?_⟩
  have h0 : (prepareGenerateTarget (fun _ => []) emptyFS (fun _ => none) 5 "A".data
      cycleDB []).map (fun r => r.2.2.1.length) = some 0 := rfl
  rw [h0]
  intro hcon
  exact absurd (Option.some.inj hcon) (by decide)

/-- C1 (amended): revisiting a target already on the current recursion path
logs exactly one non-fatal circular-dependency warning and treats that
back-edge target as needing building iff it does not exist (for every
database, filesystem and visiting set).  For the graph `A → B → A`: with
neither file present the resolver terminates immediately, reporting "needs
building" with **no** cycle warning (the missing target short-circuits
before visiting prerequisites); with both files present and equally old it
terminates, emits exactly one cycle warning, and reports the target up to
date. -/
theorem prepGen_cycle_behaviour (g : Globber) (fs : FileSys) (macros : Macros)
    (fuel : Nat) (target : Str) (targets : RuleDB) (visiting : List Str)
    (hs : pyStrip target = target) (hv : target ∈ visiting) :
    prepareGenerateTarget g fs macros (fuel + 1) target targets visiting
      = some ((findFile fs macros target).isNone, targets,
          [MakeWarn.circular target], [])
    ∧ prepareGenerateTarget (fun _ => []) emptyFS (fun _ => none) 5 "A".data cycleDB []
        = some (true, cycleDB, [], [])
    ∧ prepareGenerateTarget (fun _ => []) abFS (fun _ => none) 5 "A".data cycleDB []
        = some (false, cycleDB, [MakeWarn.circular "A".data], []) := by
  refine ⟨?_, rfl, rfl⟩
  unfold prepareGenerateTarget
  rw [hs, if_pos hv]

/-- C1 (witness): the back-edge case applied at a concrete visiting set. -/
theorem prepGen_cycle_behaviour_witness :
    prepareGenerateTarget (fun _ => []) emptyFS (fun _ => none) 3 "A".data cycleDB
      ["A".data]
      = some (true, cycleDB, [MakeWarn.circular "A".data], []) := by
  have h := (prepGen_cycle_behaviour (fun _ => []) emptyFS (fun _ => none) 2
    "A".data cycleDB ["A".data] (by decide) (by simp)).1
  exact h.trans (by rfl)

/-- C6: for every target with no rule-database entry after implicit-rule
synthesis has been attempted: if the target does not exist on disk or the
search path, the resolver reports a fatal "no rule to make target" error
(and returns without marking it for building); if the target does exist,
the resolver returns that it is up to date, with no error. -/
theorem prepGen_no_rule (g : Globber) (fs : FileSys) (macros : Macros)
    (fuel : Nat) (target : Str) (targets targets' : RuleDB) (visiting : List Str)
    (hs : pyStrip target = target) (hv : target ∉ visiting)
    (hHas : dbHas targets target = false)
    (hGen : (generateRecipeFor g fs target targets macros).map Prod.snd = some targets')
    (hAbsent : dbGet targets' target = none) :
    prepareGenerateTarget g fs macros (fuel + 1) target targets visiting
      = if (findFile fs macros target).isSome
        then some (false, targets', [], [])
        else some (false, targets', [], [MakeErr.noRule target]) := by
  unfold prepareGenerateTarget
  rw [hs, if_neg hv, hHas]
  simp only [Bool.false_eq_true, if_false, hGen]
  rw [hAbsent]

/-- C6 (witness): the no-rule case on an empty database, for a missing and
for an existing target file. -/
theorem prepGen_no_rule_witness :
    prepareGenerateTarget (fun _ => []) emptyFS (fun _ => none) 5 "foo".data [] []
      = some (false, [], [], [MakeErr.noRule "foo".data])
    ∧ prepareGenerateTarget (fun _ => [])
        (fun p => if p = "foo".data then some 0 else none) (fun _ => none) 5
        "foo".data [] []
      = some (false, [], [], []) := by
  constructor
  · have h := prepGen_no_rule (fun _ => []) emptyFS (fun _ => none) 4 "foo".data
      [] [] [] (by decide) (by simp) (by decide) (by rfl) (by rfl)
    exact h.trans (by rfl)
  · have h := prepGen_no_rule (fun _ => [])
      (fun p => if p = "foo".data then some 0 else none) (fun _ => none) 4
      "foo".data [] [] [] (by decide) (by simp) (by decide) (by rfl) (by rfl)
    exact h.trans (by rfl)

lemma dbGet_cons (a : Str) (b : RuleEntry) (l : RuleDB) (k : Str) :
    dbGet ((a, b) :: l) k = if a = k then some b else dbGet l k := by
  by_cases h : a = k
  · simp [dbGet, List.find?, h]
  · simp [dbGet, List.find?, h]

lemma dbGet_dbSet_self (db : RuleDB) (k : Str) (v : RuleEntry) :
    dbGet (dbSet db k v) k = some v := by
  induction db with
  | nil => simp [dbSet, dbGet_cons]
  | cons p rest ih =>
    cases p with
    | mk pk pv =>
      by_cases h : pk = k
      · subst h
        simp [dbSet, dbGet_cons]
      · simp [dbSet, h, dbGet_cons, ih]

lemma dbGet_dbSet_ne (db : RuleDB) (k k' : Str) (v : RuleEntry) (h : k' ≠ k) :
    dbGet (dbSet db k v) k' = dbGet db k' := by
  induction db with
  | nil => simp [dbSet, dbGet_cons, dbGet, List.find?, Ne.symm h]
  | cons p rest ih =>
    cases p with
    | mk pk pv =>
      by_cases hp : pk = k
      · subst hp
        simp [dbSet, dbGet_cons, Ne.symm h]
      · simp [dbSet, hp, dbGet_cons, ih]

lemma isPhony_dbSet (db : RuleDB) (t : Str) (e : RuleEntry) (dep : Str)
    (hT : t ≠ ".PHONY".data) :
    isPhony dep (dbSet db t e) = isPhony dep db := by
  unfold isPhony
  rw [dbGet_dbSet_ne db t _ e (fun hh => hT hh.symm)]

lemma unsatCount_dbSet (g : Globber) (fs : FileSys) (macros : Macros)
    (db : RuleDB) (t : Str) (e : RuleEntry) (deps : List Str)
    (hT : t ≠ ".PHONY".data) :
    unsatCount g fs macros (dbSet db t e) deps = unsatCount g fs macros db deps := by
  unfold unsatCount
  congr 1
  apply List.filter_congr
  intro dep _
  rw [isPhony_dbSet db t e dep hT]

lemma selectRule_generated (g : Globber) (fs : FileSys) (macros : Macros)
    (target : Str) :
    ∀ (cands : List (List Str × List Str)) (targets : RuleDB) (fw : Option Nat),
      (selectRule g fs macros target targets fw true cands).1 = true := by
  intro cands
  induction cands with
  | nil => intro targets fw; rfl
  | cons c more ih =>
    intro targets fw
    cases c with
    | mk d r =>
      simp only [selectRule]
      split
      · exact ih _ _
      · exact ih _ _

lemma selectRule_some_spec (g : Globber) (fs : FileSys) (macros : Macros)
    (target : Str) (hT : target ≠ ".PHONY".data) :
    ∀ (cands : List (List Str × List Str)) (targets : RuleDB) (fv : Nat) (gen : Bool),
      dbGet (selectRule g fs macros target targets (some fv) gen cands).2 target
        = (match argminFirst (fun c => unsatCount g fs macros targets c.1) cands with
           | some y => if unsatCount g fs macros targets y.1 < fv
                       then some (RuleEntry.plain y.1 y.2) else dbGet targets target
           | none => dbGet targets target) := by
  intro cands
  induction cands with
  | nil => intro targets fv gen; rfl
  | cons c more ih =>
    intro targets fv gen
    cases c with
    | mk d r =>
      simp only [selectRule]
      by_cases hb : unsatCount g fs macros targets d < fv
      · rw [if_pos (by simpa using hb)]
        rw [ih (dbSet targets target (RuleEntry.plain d r))
          (unsatCount g fs macros targets d) true]
        simp only [unsatCount_dbSet g fs macros targets target _ _ hT,
          dbGet_dbSet_self]
        simp only [argminFirst]
        cases hmin : argminFirst (fun c => unsatCount g fs macros targets c.1) more with
        | none => simp [hb]
        | some y =>
          dsimp only
          by_cases hy : unsatCount g fs macros targets y.1 < unsatCount g fs macros targets d
          · rw [if_pos hy, if_neg (by omega)]
            dsimp only
            rw [if_pos (by omega)]
          · rw [if_neg hy, if_pos (by omega)]
            dsimp only
            rw [if_pos (by simpa using hb)]
      · rw [if_neg (by simpa using hb)]
        rw [ih targets fv gen]
        simp only [argminFirst]
        cases hmin : argminFirst (fun c => unsatCount g fs macros targets c.1) more with
        | none =>
          dsimp only
          rw [if_neg hb]
        | some y =>
          dsimp only
          by_cases hdy : unsatCount g fs macros targets d ≤ unsatCount g fs macros targets y.1
          · rw [if_pos hdy]
            dsimp only
            by_cases hyfv : unsatCount g fs macros targets y.1 < fv
            · exfalso
              omega
            · rw [if_neg hyfv, if_neg (by omega)]
          · rw [if_neg hdy]

/-- C5: the implicit-rule synthesizer selects, among all candidate
synthesized rules, the first one whose glob-expanded prerequisite list has
the fewest prerequisites that are neither phony nor found on disk or the
search path (strict improvement only, so ties keep the first-found
candidate), and memoizes it into the rule database; concretely, of two
pattern rules matching `a.o` — one with its substituted prerequisite
existing, one unresolvable — the former is selected and written into the
database, in either database order. -/
theorem generateRecipeFor_fewest_unsat (g : Globber) (fs : FileSys)
    (macros : Macros) (target : Str) (targets : RuleDB)
    (hT : target ≠ ".PHONY".data)
    (hAbsent : dbHas targets target = false)
    (cands : List (List Str × List Str))
    (hCands : collectCandidates target targets targets = some cands)
    (hne : cands ≠ []) :
    (∃ best, argminFirst (fun c => unsatCount g fs macros targets c.1) cands = some best ∧
       ∃ db', generateRecipeFor g fs target targets macros = some (true, db') ∧
         dbGet db' target = some (RuleEntry.plain best.1 best.2))
    ∧ (generateRecipeFor (fun _ => []) demoFS "a.o".data demoPatternDB
         (fun _ => none)).map (fun r => (r.1, dbGet r.2 "a.o".data))
        = some (true, some (RuleEntry.plain ["a.c".data] ["cc".data]))
    ∧ (generateRecipeFor (fun _ => []) demoFS "a.o".data demoPatternDBFlipped
         (fun _ => none)).map (fun r => (r.1, dbGet r.2 "a.o".data))
        = some (true, some (RuleEntry.plain ["a.c".data] ["cc".data])) := by
  refine ⟨?_, by decide, by decide⟩
  cases cands with
  | nil => exact absurd rfl hne
  | cons c more =>
    cases c with
    | mk d r =>
      have step : generateRecipeFor g fs target targets macros
          = some (selectRule g fs macros target
              (dbSet targets target (RuleEntry.plain d r))
              (some (unsatCount g fs macros targets d)) true more) := by
        unfold generateRecipeFor
        rw [hAbsent, hCands]
        rfl
      have h1 := selectRule_some_spec g fs macros target hT more
        (dbSet targets target (RuleEntry.plain d r)) (unsatCount g fs macros targets d) true
      simp only [unsatCount_dbSet g fs macros targets target _ _ hT,
        dbGet_dbSet_self] at h1
      have hgen := selectRule_generated g fs macros target more
        (dbSet targets target (RuleEntry.plain d r)) (some (unsatCount g fs macros targets d))
      have hres : selectRule g fs macros target
          (dbSet targets target (RuleEntry.plain d r))
          (some (unsatCount g fs macros targets d)) true more
          = (true, (selectRule g fs macros target
              (dbSet targets target (RuleEntry.plain d r))
              (some (unsatCount g fs macros targets d)) true more).2) :=
        Prod.ext hgen rfl
      cases hmin : argminFirst (fun c => unsatCount g fs macros targets c.1) more with
      | none =>
        rw [hmin] at h1
        refine ⟨(d, r), by simp [argminFirst, hmin], _, by rw [step, hres], ?_⟩
        simpa using h1
      | some y =>
        rw [hmin] at h1
        dsimp only at h1
        by_cases hy : unsatCount g fs macros targets d ≤ unsatCount g fs macros targets y.1
        · refine ⟨(d, r), by simp [argminFirst, hmin, hy], _, by rw [step, hres], ?_⟩
          rw [h1, if_neg (by omega)]
        · refine ⟨y, by simp [argminFirst, hmin, hy], _, by rw [step, hres], ?_⟩
          rw [h1, if_pos (by omega)]

/-- C5 (witness): the selection theorem applied to the concrete
two-pattern-rule database. -/
theorem generateRecipeFor_fewest_unsat_witness :
    ∃ best,
      argminFirst (fun c => unsatCount (fun _ => []) demoFS (fun _ => none)
          demoPatternDB c.1)
        [(["a.c".data], ["cc".data]), (["a.n".data], ["bad".data])] = some best ∧
      ∃ db', generateRecipeFor (fun _ => []) demoFS "a.o".data demoPatternDB
          (fun _ => none) = some (true, db') ∧
        dbGet db' "a.o".data = some (RuleEntry.plain best.1 best.2) := by
  exact (generateRecipeFor_fewest_unsat (fun _ => []) demoFS (fun _ => none)
    "a.o".data demoPatternDB (by decide) (by decide) _ (by decide) (by decide)).1

/-- C2 (counterexample): `word` with index 0 is *not* an error in this code:
`$(word 0,a b)` silently returns the **last** word (`selectIndex` becomes
the Python index `-1`), completing with an empty error list, contradicting
the claim that index 0 is an error. -/
theorem getWordOf_zero_not_error :
    getWordOf makeUtilMacroCfg (fun _ => none) 5 "0,a b".data (fun _ => none) none
      = some ("b".data, []) := rfl

/-- C2 (amended): `word` and `wordlist` are 1-indexed; for every word list
(obtained by whitespace-splitting a comma-free, macro-free text), `word n`
with `1 ≤ n ≤ count` returns the n-th word, `n > count` returns the empty
string; but `word 0` is **not** an error — it returns the last word with no
error reported (Python negative indexing); and
`wordlist(2,3,"a b c d")` returns `"b c"`. -/
theorem getWordOf_one_indexed (cmds : MacroCmds) (m : Macros) (n : Nat)
    (ns text : Str)
    (hnsInt : pyInt? ns = some (n : Int))
    (hnsFree : ∀ c ∈ ns, c ≠ ',' ∧ c ≠ '$')
    (htext : ∀ c ∈ text, c ≠ '$') :
    ((1 ≤ n → n ≤ (pyResplit (pyStrip text)).length →
        getWordOf makeUtilMacroCfg cmds 5 (ns ++ ',' :: text) m none
          = some ((pyResplit (pyStrip text)).getD (n - 1) [], []))
     ∧ ((pyResplit (pyStrip text)).length < n →
        getWordOf makeUtilMacroCfg cmds 5 (ns ++ ',' :: text) m none = some ([], []))
     ∧ (n = 0 →
        getWordOf makeUtilMacroCfg cmds 5 (ns ++ ',' :: text) m none
          = some ((pyResplit (pyStrip text)).getLastD [], []))
     ∧ makeCmdWordList makeUtilMacroCfg cmds 5 "2,3,a b c d".data m
          = some ("b c".data, [])) := by
  have hsFree : ∀ c ∈ ns ++ ',' :: text, c ≠ '$' := by
    intro c hc
    rcases List.mem_append.mp hc with h1 | h1
    · exact (hnsFree c h1).2
    · rcases List.mem_cons.mp h1 with h2 | h2
      · subst h2; decide
      · exact htext c h2
  have hsplit : argumentSplit (ns ++ ',' :: text)
      = (ns :: ((commaSplitGo text []).1 ++ [(commaSplitGo text []).2]), []) := by
    rw [argumentSplit_no_dollar _ hsFree,
      commaSplitGo_append_free ns (fun c hc => (hnsFree c hc).1) (',' :: text) []]
    simp [commaSplitGo]
  have hT : ((commaSplitGo text []).1 ++ [(commaSplitGo text []).2]).length
      = (commaSplitGo text []).1.length + 1 := by simp
  have hexp_ns : expandMacroUsages makeUtilMacroCfg cmds 5 ns m = some (ns, []) :=
    expandMacroUsages_no_dollar _ _ 4 _ _ (fun c hc => (hnsFree c hc).2)
  have hstripFree : ∀ c ∈ pyStrip text, c ≠ '$' := fun c hc => htext c (mem_pyStrip hc)
  have hexp_text : expandMacroUsages makeUtilMacroCfg cmds 5 (pyStrip text) m
      = some (pyStrip text, []) :=
    expandMacroUsages_no_dollar _ _ 4 _ _ hstripFree
  have hjoin := joinComma_commaSplit text htext
  have key : getWordOf makeUtilMacroCfg cmds 5 (ns ++ ',' :: text) m none
      = some ((pyGet (pyResplit (pyStrip text)) ((n : Int) - 1)).getD [], []) := by
    unfold getWordOf
    rw [hsplit]
    simp only [List.length_cons, hT, List.headD_cons, List.drop_one, List.tail_cons]
    rw [if_neg (by omega)]
    rw [hexp_ns]
    dsimp only
    rw [hnsInt]
    dsimp only
    rw [hjoin]
    unfold getWordOfFinish
    rw [hexp_text]
    simp
  refine ⟨?_, ?_, ?_, ?_⟩
  · intro h1 h2
    rw [key]
    have hcast : ((n : Int) - 1) = ((n - 1 : Nat) : Int) := by omega
    rw [hcast, pyGet_nat_lt _ _ (by omega)]
    simp [List.getD]
  · intro h1
    rw [key]
    have hn1 : 1 ≤ n := by
      have := List.length_pos.mpr (pyResplit_ne_nil (pyStrip text))
      omega
    have hcast : ((n : Int) - 1) = ((n - 1 : Nat) : Int) := by omega
    rw [hcast, pyGet_nat_ge _ _ (by omega)]
    rfl
  · intro h1
    subst h1
    rw [key]
    have hcast : ((0 : Nat) : Int) - 1 = (-1 : Int) := by norm_num
    rw [hcast, pyGet_neg_one _ (pyResplit_ne_nil (pyStrip text))]
    rw [List.getLastD_eq_getLast?]
  · rfl

/-- C2 (witness): the amended theorem applied at `word 2` of `a b c`. -/
theorem getWordOf_one_indexed_witness :
    getWordOf makeUtilMacroCfg (fun _ => none) 5 "2,a b c".data (fun _ => none) none
      = some ("b".data, []) := by
  have h := (getWordOf_one_indexed (fun _ => none) (fun _ => none) 2 "2".data
    "a b c".data (by decide) (by decide) (by decide)).1 (by norm_num) (by decide)
  exact h.trans (by decide)

/-- C3: with the `MakeUtil` configuration, for every macro table, every
macro-command registry, a plain `=` assignment stores its right-hand side
unexpanded (`Y=$(X)` stores the literal text `$(X)`), and expansion happens
at reference time with the then-current table: after `Y=$(X)` followed by
`X=a`, expanding `$(Y)` yields `a`, so the later redefinition of `X` is
visible when `Y` is referenced. -/
theorem eq_assignment_deferred (m : Macros) (cmds : MacroCmds) :
    assignResult cmds "Y=$(X)".data m "Y".data = some (some "$(X)".data)
    ∧ expandAfterDefs makeUtilMacroCfg cmds 10 "Y=$(X)\nX=a".data "$(Y)".data m
        = some "a".data := by
  exact ⟨rfl, rfl⟩

/-- C4: with the `MakeUtil` configuration, for every macro table, every
command registry and every current value `v` of `X`: processing `X+=b`
updates `X` to `v` concatenated with the immediately-expanded right-hand
side `b`, separated by exactly one space when both the previous value and
the right-hand side are non-empty; on a table where `X` is undefined,
`X+=b` defines `X` to `b` (like `:=`); and `X=a` followed by `X+=b` yields
`a b`. -/
theorem plusEq_assignment (m : Macros) (cmds : MacroCmds) (v : Str) :
    assignResult cmds "X+=b".data (mupd m "X".data v) "X".data
        = some (some ((if v.isEmpty then [] else v ++ [' ']) ++ "b".data))
    ∧ assignResult cmds "X+=b".data (mdel m "X".data) "X".data
        = some (some "b".data)
    ∧ assignResult cmds "X=a\nX+=b".data m "X".data = some (some "a b".data) := by
  refine ⟨?_, rfl, rfl⟩
  cases v with
  | nil => rfl
  | cons c t => rfl

/-- C7: the scheduler respects the job budget.  For every completed
`satisfyDependencies` run whose incoming trace already satisfied the guard:
every worker spawned anywhere in the run read, inside the lock, a
running-job count strictly below `maxJobs` (so the counter after the
guarded check-and-increment never exceeds the budget — in particular the
directly-spawned siblings of a single recursion level, which are exactly
the spawns charged against that level's counter); the run restores the
running-job counter it started with; and with a budget of 1 and the
caller's thread as the one running job, no worker is ever spawned — the
build degenerates to the fully sequential synchronous recursion. -/
theorem scheduler_job_budget (cfg : SchedCfg) (g : Globber) (fs : FileSys)
    (mcfg : MacroCfg) (cmds : MacroCmds) (fuel : Nat) (target : Str)
    (st : SchedState) (r : Bool × SchedState)
    (hrun : satisfyDependencies cfg g fs mcfg cmds fuel target st = some r)
    (hg : spawnsGuarded cfg.maxJobs st.events) :
    (∀ d p, SchedEvent.spawn d p ∈ r.2.events → p < cfg.maxJobs) ∧
    r.2.jobs = st.jobs ∧
    (cfg.maxJobs = 1 → st.jobs = 1 →
      spawnCount r.2.events = spawnCount st.events) := by
  have hok := satisfyDependencies_ok cfg g fs mcfg cmds fuel target st r hrun
  exact ⟨hok.2.1 hg, hok.1, hok.2.2⟩

/-- C7 witness: the concrete one-job build of `out` from `in` (`seqDB`):
every spawn in its final trace is within the budget of 1 (vacuously — the
trace `[echo, run]` holds none), the job counter returns to 1, and the
spawn count of the final trace equals that of the empty initial trace. -/
theorem scheduler_job_budget_witness :
    (∀ d p, SchedEvent.spawn d p ∈ seqResult.2.events → p < seqCfg.maxJobs) ∧
    seqResult.2.jobs = seqSt.jobs ∧
    (seqCfg.maxJobs = 1 → seqSt.jobs = 1 →
      spawnCount seqResult.2.events = spawnCount seqSt.events) :=
  scheduler_job_budget seqCfg (fun _ => []) seqFS makeUtilMacroCfg
    (fun _ => none) 5 "out".data seqSt seqResult rfl
    (by intro d p h; simp [seqSt] at h)

/-- C8 (counterexample): for the two-target rule line `a b:` the returned
default-goal ordering is `["b", "a"]`: its first element is `b`, not the
first ordinary target in file order (`a`).  The bottom-up line scan appends
the targets of one line left-to-right and the final `reverse()` flips them,
so the targets of a single multi-target line end up in reverse file order. -/
theorem getTargetActions_multi_target_head :
    (getTargetActions "a b:\n\tcmd".data).2.1 = ["b".data, "a".data]
    ∧ "b".data ≠ "a".data :=
  ⟨by decide, by decide⟩

/-- C8 (amended): for every makefile text (after macro expansion and
include resolution), the default-goal ordering is its non-dot names
followed by its dot names — every target name beginning with `.` is placed
after all ordinary target names; and when `runMakefile` receives an empty
target argument and the ordering holds at least one ordinary name, the
target it builds is the head of the ordering, which is an ordinary
(non-dot) target — though not necessarily the first ordinary target in
file order (a multi-target line contributes its names in reverse). -/
theorem default_goal_ordering (contents : Str)
    (h : ∃ t ∈ (getTargetActions contents).2.1, pyStartsWith t ".".data = false) :
    (getTargetActions contents).2.1
      = (getTargetActions contents).2.1.filter
          (fun t => !pyStartsWith t ".".data)
        ++ (getTargetActions contents).2.1.filter
          (fun t => pyStartsWith t ".".data)
    ∧ pyStartsWith (runMakefileTarget [] (getTargetActions contents).2.1)
        ".".data = false := by
  obtain ⟨A, B, hAB, hA, hB⟩ := gta_ordering_split contents
  have hfA : A.filter (fun t => !pyStartsWith t ".".data) = A :=
    List.filter_eq_self.mpr (by intro a ha; simpa using hA a ha)
  have hfA' : A.filter (fun t => pyStartsWith t ".".data) = [] :=
    List.filter_eq_nil_iff.mpr (by intro a ha; simp [hA a ha])
  have hfB : B.filter (fun t => pyStartsWith t ".".data) = B :=
    List.filter_eq_self.mpr (fun a ha => hB a ha)
  have hfB' : B.filter (fun t => !pyStartsWith t ".".data) = [] :=
    List.filter_eq_nil_iff.mpr (by intro a ha; simp [hB a ha])
  have hAne : A ≠ [] := by
    rcases h with ⟨t, ht, hnd⟩
    rw [hAB] at ht
    rcases List.mem_append.mp ht with h' | h'
    · intro hcon
      subst hcon
      simp at h'
    · rw [hB t h'] at hnd
      exact absurd hnd (by simp)
  obtain ⟨a, A', hAcons⟩ : ∃ a A', A = a :: A' := by
    cases A with
    | nil => exact absurd rfl hAne
    | cons a A' => exact ⟨a, A', rfl⟩
  constructor
  · rw [hAB, List.filter_append, List.filter_append, hfA, hfA', hfB, hfB']
    simp
  · have hsel : runMakefileTarget [] (getTargetActions contents).2.1
        = (getTargetActions contents).2.1.headD [] := by
      unfold runMakefileTarget
      rw [if_pos]
      refine ⟨rfl, ?_⟩
      rw [hAB, hAcons]
      simp
    rw [hsel, hAB, hAcons]
    simpa using hA a (by rw [hAcons]; simp)

/-- C8 (amended, witness): the makefile `a: x / ⟨tab⟩c1 / b: / .PHONY: a`
has ordering `["a", "b", ".PHONY"]`: its non-dot names come first, and with
an empty target argument the goal built is the ordinary target `"a"`. -/
theorem default_goal_ordering_witness :
    ((getTargetActions "a: x\n\tc1\nb:\n.PHONY: a".data).2.1
      = (getTargetActions "a: x\n\tc1\nb:\n.PHONY: a".data).2.1.filter
          (fun t => !pyStartsWith t ".".data)
        ++ (getTargetActions "a: x\n\tc1\nb:\n.PHONY: a".data).2.1.filter
          (fun t => pyStartsWith t ".".data))
    ∧ pyStartsWith (runMakefileTarget []
        (getTargetActions "a: x\n\tc1\nb:\n.PHONY: a".data).2.1) ".".data = false :=
  default_goal_ordering "a: x\n\tc1\nb:\n.PHONY: a".data
    ⟨"a".data, by decide, by decide⟩

end AlmostMake

